import Mathlib

/-!
# go-crud: field reflector, generic repository and route binder

A shallow embedding of `reflection.go`, `repository.go` and `methods.go`.

* Memory is a heap of cells; a field reference (`&o.Name`) is the address of a cell.
* A Go `map[string]any` holding field references is a finite map with unique keys; the order
  in which `range` visits it is a separate, arbitrary enumeration of its entries.
* `database/sql` (`*sql.DB`, `*sql.Rows`, `sql.Result`) and the squirrel statement builder are
  external collaborators; they are modelled by the behaviour the repository relies on.
* The repository mutex and the `context.Context` argument play no part in a single call and
  are left out.
* A handler is a function of the response recorder, the request and the state of the
  repository operation it is bound to; `encoding/json` is a parameter, and the router that
  matches the pattern is left out.
-/

namespace gocrud

/-! ## Errors, values, memory -/

/-- Go `error` values: `sql.ErrNoRows`, a leaf error with its message, or an error wrapping
another one (`text` is the whole message of the wrapper). -/
inductive Error where
  | ErrNoRows : Error
  | New (text : String) : Error
  | Wrap (text : String) (inner : Error) : Error
  deriving DecidableEq, Repr

/-- Method `err.Error()`: the message of an error. -/
def Error.msg : Error → String
  | Error.ErrNoRows => "sql: no rows in result set"
  | Error.New text => text
  | Error.Wrap text _ => text

/-- The test `errors.Is(err, sql.ErrNoRows)`: the error is `sql.ErrNoRows` or wraps it. -/
def Error.IsErrNoRows : Error → Bool
  | Error.ErrNoRows => true
  | Error.New _ => false
  | Error.Wrap _ inner => Error.IsErrNoRows inner

/-- The driver values a row carries and a field stores: NULL, an integer or a text. -/
inductive Value where
  | null : Value
  | int (n : Int) : Value
  | text (s : String) : Value
  deriving DecidableEq, Repr

/-- The Go type of a cell, as far as scanning tells types apart: an `int`, a `string`, or an
interface value, which holds whatever is stored in it. -/
inductive Kind where
  | int : Kind
  | string : Kind
  | any : Kind
  deriving DecidableEq, Repr

/-- An address of one memory cell; a field reference is the address of the field's cell. -/
abbrev Addr := Nat

/-- Memory: `cells` holds the content of every cell, `kind` its Go type, and `next` is the
allocation frontier (addresses from `next` on have not been handed out yet). -/
structure Heap where
  next : Addr
  cells : Addr → Value
  kind : Addr → Kind

/-- Read through a pointer. -/
def Heap.load (h : Heap) (p : Addr) : Value := h.cells p

/-- Write through a pointer: cell `p` now holds `v`, every other cell is unchanged, and no
cell changes its type. -/
def Heap.store (h : Heap) (p : Addr) (v : Value) : Heap :=
  { h with cells := Function.update h.cells p v }

/-- A `map[string]any` whose values are field references: a finite map with unique keys. -/
abbrev GoMap := AList (fun _ : String => Addr)

/-- One way for `range` to enumerate maps: for every map some enumeration of exactly its
entries. Go leaves the order unspecified, so the operations take the enumeration as an
argument and the properties are stated for every such enumeration. -/
structure MapRange where
  order : GoMap → List (Sigma (fun _ : String => Addr))
  perm : ∀ m : GoMap, (order m).Perm m.entries

/-! ## Statement builder (squirrel) -/

/-- A statement argument as the builder returns it: a pointer to a field, or a plain value. -/
inductive Arg where
  | ptr (p : Addr) : Arg
  | val (v : Value) : Arg
  deriving DecidableEq, Repr

/-- The driver value `database/sql` derives from an argument before the driver sees it:
a pointer is replaced by the value it points to. -/
def Arg.driverValue (h : Heap) : Arg → Value
  | Arg.ptr p => h.load p
  | Arg.val v => v

/-- The statements the repository builds, with `?` placeholders for the arguments.
`insert t cs` is `INSERT INTO t (cs) VALUES (?,…)`, `selectById t` is
`SELECT * FROM t WHERE id = ? LIMIT 1`, `selectAll t` is `SELECT * FROM t ORDER BY id`,
`delete t` is `DELETE FROM t WHERE id = ?` and `update t cs` is
`UPDATE t SET c = ?, … WHERE id = ?`. -/
inductive Sql where
  | insert (table : String) (columns : List String) : Sql
  | selectById (table : String) : Sql
  | selectAll (table : String) : Sql
  | delete (table : String) : Sql
  | update (table : String) (columns : List String) : Sql
  deriving DecidableEq, Repr

namespace sq

/-- The builder call `Insert(table).Columns(columns...).Values(values...).ToSql()`.
The builder refuses a statement without a table. -/
def Insert (table : String) (columns : List String) (values : List Addr) :
    Except Error (Sql × List Arg) :=
  if table = "" then Except.error (Error.New "insert statements must specify a table")
  else Except.ok (Sql.insert table columns, values.map Arg.ptr)

/-- The builder call `Select("*").From(table).Where(Eq{"id": id}).Limit(1).ToSql()`. -/
def SelectById (table : String) (id : Int) : Except Error (Sql × List Arg) :=
  Except.ok (Sql.selectById table, [Arg.val (Value.int id)])

/-- The builder call `Select("*").From(table).OrderBy("id").ToSql()`. -/
def SelectAll (table : String) : Except Error (Sql × List Arg) :=
  Except.ok (Sql.selectAll table, [])

/-- The builder call `Delete(table).Where(Eq{"id": id}).ToSql()`. -/
def Delete (table : String) (id : Int) : Except Error (Sql × List Arg) :=
  if table = "" then Except.error (Error.New "delete statements must specify a From table")
  else Except.ok (Sql.delete table, [Arg.val (Value.int id)])

/-- The order in which `SetMap` emits its clauses: the keys sorted as strings. -/
def sortedKeys (m : GoMap) : List String :=
  List.insertionSort (fun a b : String => a.data ≤ b.data) m.keys

/-- The builder call `Update(table).SetMap(m).Where(Eq{"id": id}).ToSql()`. `SetMap` adds one
`Set` clause per entry, keys in sorted order. The builder refuses a statement without a table
or without any `Set` clause. -/
def Update (table : String) (m : GoMap) (id : Int) : Except Error (Sql × List Arg) :=
  if table = "" then Except.error (Error.New "update statements must specify a table")
  else if m.keys = [] then
    Except.error (Error.New "update statements must have at least one Set clause")
  else
    Except.ok (Sql.update table (sortedKeys m),
      (sortedKeys m).filterMap (fun k => (m.lookup k).map Arg.ptr) ++ [Arg.val (Value.int id)])

end sq

/-! ## strconv -/

namespace strconv

/-- The value of a string of decimal digits. -/
def digitsValue (ds : List Char) : Nat :=
  ds.foldl (fun acc d => acc * 10 + (d.toNat - 48)) 0

/-- The sign and the digits of a string: a leading `+` or `-` is the sign. -/
def splitSign (cs : List Char) : Bool × List Char :=
  match cs with
  | '-' :: rest => (true, rest)
  | '+' :: rest => (false, rest)
  | _ => (false, cs)

/-- A decimal integer: an optional sign followed by one or more decimal digits. -/
def isDecimal (s : String) : Bool :=
  let ds := (splitSign s.data).2
  !ds.isEmpty && ds.all Char.isDigit

/-- The function `strconv.Atoi` for a 64-bit `int`: the value of a decimal integer that fits,
an error for every other string. -/
def Atoi (s : String) : Except Error Int :=
  let sd := splitSign s.data
  if sd.2.isEmpty || !sd.2.all Char.isDigit then
    Except.error (Error.New ("strconv.Atoi: parsing " ++ s.quote ++ ": invalid syntax"))
  else
    let v : Int := if sd.1 then -(digitsValue sd.2 : Int) else (digitsValue sd.2 : Int)
    if v < -(2 : Int) ^ 63 ∨ (2 : Int) ^ 63 - 1 < v then
      Except.error (Error.New ("strconv.Atoi: parsing " ++ s.quote ++ ": value out of range"))
    else Except.ok v

end strconv

/-! ## database/sql -/

/-- The conversion of `database/sql` from a driver value to the type of a destination
(`convertAssign`). An interface value takes the driver value as it is. A `string` takes a
text, and an integer as its decimal text. An `int` takes an integer, and a text that is a
decimal integer in range. NULL converts to neither `string` nor `int`. -/
def convertAssign (dest : Kind) (src : Value) : Except Error Value :=
  match dest, src with
  | Kind.any, v => Except.ok v
  | Kind.string, Value.text t => Except.ok (Value.text t)
  | Kind.string, Value.int n => Except.ok (Value.text (toString n))
  | Kind.string, Value.null =>
    Except.error (Error.New "converting NULL to string is unsupported")
  | Kind.int, Value.int n => Except.ok (Value.int n)
  | Kind.int, Value.text t =>
    match strconv.Atoi t with
    | Except.ok n => Except.ok (Value.int n)
    | Except.error _ =>
      Except.error (Error.New ("converting driver.Value type string (\"" ++ t ++
        "\") to a int: " ++
        (if strconv.isDecimal t then "value out of range" else "invalid syntax")))
  | Kind.int, Value.null => Except.error (Error.New "converting NULL to int is unsupported")

/-- The value that a successful conversion stores (the driver value itself where the
conversion fails). -/
def storedValue (dest : Kind) (src : Value) : Value :=
  match convertAssign dest src with
  | Except.ok v => v
  | Except.error _ => src

/-- A `sql.Result`: what `LastInsertId()` and `RowsAffected()` return. -/
structure Result where
  LastInsertId : Except Error Int
  RowsAffected : Except Error Int

/-- A `*sql.Rows` cursor. `columns`, `pending`, `fetchErr` and `closeErr` describe the result
set held by the driver: its column names, the rows not yet fetched, the error the driver
reports when asked for a row after the pending ones (`none` for a normal end of data) and the
error the driver reports on close. `lastcols`, `lasterr` and `closed` are the cursor state of
`database/sql`; a normal end of data is recorded as no error. -/
structure Rows where
  columns : List String
  pending : List (List Value)
  fetchErr : Option Error
  closeErr : Option Error
  lastcols : Option (List Value)
  lasterr : Option Error
  closed : Bool

/-- The cursor a successful query hands back: open, before the first row. -/
def Rows.opened (columns : List String) (data : List (List Value))
    (fetchErr closeErr : Option Error) : Rows :=
  { columns := columns, pending := data, fetchErr := fetchErr, closeErr := closeErr,
    lastcols := none, lasterr := none, closed := false }

/-- The error of `database/sql` for a closed cursor. -/
def errRowsClosed : Error := Error.New "sql: Rows are closed"

/-- Method `rows.Close()`: nothing on a closed cursor; otherwise closes it, reports the
driver close error and records it unless an earlier error is recorded. -/
def Rows.Close (rs : Rows) : Option Error × Rows :=
  if rs.closed then (none, rs)
  else (rs.closeErr, { rs with closed := true, lasterr := rs.lasterr <|> rs.closeErr })

/-- Method `rows.Next()`: on a closed cursor `false`; with a pending row, `true` and that row
becomes the current one, in a buffer with one slot per column; otherwise `false`, the fetch
error is recorded and the cursor is closed. -/
def Rows.Next (rs : Rows) : Bool × Rows :=
  if rs.closed then (false, rs)
  else
    match rs.pending with
    | row :: rest =>
      (true, { rs with
        pending := rest,
        lastcols := some ((List.range rs.columns.length).map (fun i => row.getD i Value.null)) })
    | [] => (false, (Rows.Close { rs with lasterr := rs.fetchErr }).2)

/-- Method `rows.Err()`: the recorded error. -/
def Rows.Err (rs : Rows) : Option Error := rs.lasterr

/-- Method `rows.Columns()`: the column names of an open cursor. -/
def Rows.Columns (rs : Rows) : Except Error (List String) :=
  if rs.closed then Except.error (rs.lasterr.getD errRowsClosed)
  else Except.ok rs.columns

/-- The error of `rows.Scan` for a wrong number of destinations. -/
def errScanArgs (want got : Nat) : Error :=
  Error.New ("sql: expected " ++ toString want ++ " destination arguments in Scan, not " ++
    toString got)

/-- The error of `rows.Scan` for a value that does not convert to the type of its
destination: it wraps the error of the conversion. -/
def errScanColumn (columns : List String) (i : Nat) (err : Error) : Error :=
  Error.Wrap ("sql: Scan error on column index " ++ toString i ++ ", name \"" ++
    columns.getD i "" ++ "\": " ++ err.msg) err

/-- The loop of `rows.Scan` over the destinations and the values of the current row, from
column `i` on: each value is converted to the type of its destination and stored through it;
the first value that does not convert ends the loop with an error, the values before it
stay stored. -/
def Rows.Scan.assign (columns : List String) :
    Nat → List (Addr × Value) → Heap → Option Error × Heap
  | _, [], h => (none, h)
  | i, pv :: rest, h =>
    match convertAssign (h.kind pv.1) pv.2 with
    | Except.error err => (some (errScanColumn columns i err), h)
    | Except.ok v => Rows.Scan.assign columns (i + 1) rest (h.store pv.1 v)

/-- Method `rows.Scan(dest...)`: fails on a recorded error, a closed cursor, a missing current
row, or when the number of destinations differs from the number of columns of the current
row; otherwise converts and stores the value at position `i` of the row through `dest[i]`,
for `i = 0, 1, …` in turn, and fails at the first value that does not convert. -/
def Rows.Scan (rs : Rows) (dest : List Addr) (h : Heap) : Option Error × Heap :=
  match rs.lasterr with
  | some err => (some err, h)
  | none =>
    if rs.closed then (some errRowsClosed, h)
    else
      match rs.lastcols with
      | none => (some (Error.New "sql: Scan called without calling Next"), h)
      | some lastcols =>
        if dest.length ≠ lastcols.length then
          (some (errScanArgs lastcols.length dest.length), h)
        else
          Rows.Scan.assign rs.columns 0 (List.zip dest lastcols) h

/-- The executor `*sql.DB` with its state `σ`. Both calls return either a result or an
error; the arguments arrive as driver values. -/
structure DB (σ : Type) where
  ExecContext : Sql → List Value → σ → Except Error Result × σ
  QueryContext : Sql → List Value → σ → Except Error Rows × σ

/-! ## Repository -/

/-- What the repository knows of the record type `M`: the `Model` interface method, invoked
as `model.StructToMap(model)`, and the zero value of `M` (`var zero M`). -/
structure Model (M : Type) where
  StructToMap : M → GoMap
  zero : M

/-- The generic repository: executor, blank record factory, table name. The factory is caller
code that may allocate, so it transforms the heap. -/
structure Repository (M : Type) (σ : Type) where
  db : DB σ
  new : Heap → M × Heap
  table : String

/-- Constructor `NewGenericRepository`. -/
def NewGenericRepository {M σ : Type} (db : DB σ) (table : String) (new : Heap → M × Heap) :
    Repository M σ :=
  { db := db, new := new, table := table }

/-- Method `GetTable`. -/
def Repository.GetTable {M σ : Type} (r : Repository M σ) : String := r.table

/-- A Go slice of records: `none` is the nil slice. -/
abbrev Slice (M : Type) := Option (List M)

/-- The elements of a slice; the nil slice has none. -/
def Slice.elems {M : Type} (s : Slice M) : List M := s.getD []

/-- The builtin `append(s, x)`. -/
def Slice.append {M : Type} (s : Slice M) (x : M) : Slice M := some (Slice.elems s ++ [x])

/-- How a call ends: it returns a value, or it panics. -/
inductive Outcome (α : Type) where
  | ret (a : α) : Outcome α
  | panic (msg : String) : Outcome α
  deriving DecidableEq, Repr

/-- Method `set`: the destinations are the field references of those column names that are
keys of the record's mapping, in column order; they are handed to `scan` in one call. -/
def Repository.set {M σ : Type} (I : Model M) (_r : Repository M σ) (fields : List String)
    (scan : List Addr → Heap → Option Error × Heap) (model : M) (h : Heap) :
    Option Error × Heap :=
  let validate := I.StructToMap model
  let dest := fields.foldl
    (fun (dest : List Addr) field =>
      match validate.lookup field with
      | some p => dest ++ [p]
      | none => dest) []
  scan dest h

/-- The loop of `Create` over the entries of the mapping in the order `range` yields them:
every entry but `"id"` appends its key to `columns` and its field reference to `values`. -/
def Repository.Create.collect (it : List (Sigma (fun _ : String => Addr))) :
    List String × List Addr :=
  it.foldl
    (fun (acc : List String × List Addr) kv =>
      if kv.1 = "id" then acc else (acc.1 ++ [kv.1], acc.2 ++ [kv.2])) ([], [])

/-- Method `Create`. The insert id is an `int64` and `int` is as wide, so `int(id)` is `id`. -/
def Repository.Create {M σ : Type} (I : Model M) (rng : MapRange) (r : Repository M σ)
    (model : M) (h : Heap) (s : σ) : (Int × Option Error) × σ :=
  let m := I.StructToMap model
  let cv := Repository.Create.collect (rng.order m)
  match sq.Insert r.table cv.1 cv.2 with
  | Except.error err => ((0, some err), s)
  | Except.ok (query, args) =>
    match r.db.ExecContext query (args.map (Arg.driverValue h)) s with
    | (Except.error err, s) => ((0, some err), s)
    | (Except.ok result, s) =>
      match result.LastInsertId with
      | Except.error err => ((0, some err), s)
      | Except.ok id => ((id, none), s)

/-- Method `Get`. After a successful query the outer `err` is nil, and that is what the
branch for a cursor without rows returns when `rows.Err()` is nil as well. -/
def Repository.Get {M σ : Type} (I : Model M) (r : Repository M σ) (id : Int) (h : Heap)
    (s : σ) : (M × Option Error) × Heap × σ :=
  let zero := I.zero
  match sq.SelectById r.table id with
  | Except.error err => ((zero, some err), h, s)
  | Except.ok (query, args) =>
    match r.db.QueryContext query (args.map (Arg.driverValue h)) s with
    | (Except.error err, s) => ((zero, some err), h, s)
    | (Except.ok rows, s) =>
      let err : Option Error := none
      let (more, rows) := rows.Next
      if !more then
        match rows.Err with
        | some err => ((zero, some err), h, s)
        | none => ((zero, err), h, s)
      else
        match rows.Columns with
        | Except.error err => ((zero, some err), h, s)
        | Except.ok fields =>
          let (model, h) := r.new h
          match Repository.set I r fields rows.Scan model h with
          | (some err, h) => ((zero, some err), h, s)
          | (none, h) =>
            let (cerr, rows) := rows.Close
            match cerr with
            | some err => ((zero, some err), h, s)
            | none =>
              match rows.Err with
              | some err => ((zero, some err), h, s)
              | none => ((model, none), h, s)

/-- The loop `for rows.Next() { … }` of `GetAll`. Every iteration consumes one pending row,
so `fuel` larger than the number of pending rows is never used up. The result is the error
of a failed scan or the records collected, with the cursor and the heap the loop leaves. -/
def Repository.GetAll.loop {M σ : Type} (I : Model M) (r : Repository M σ)
    (fields : List String) : Nat → Rows → Heap → Slice M → Except Error (Slice M) × Rows × Heap
  | 0, rows, h, models => (Except.ok models, rows, h)
  | fuel + 1, rows, h, models =>
    let (more, rows) := rows.Next
    if !more then (Except.ok models, rows, h)
    else
      let (model, h) := r.new h
      match Repository.set I r fields rows.Scan model h with
      | (some err, h) => (Except.error err, rows, h)
      | (none, h) => Repository.GetAll.loop I r fields fuel rows h (Slice.append models model)

/-- Method `GetAll`. `var models []M` starts as the nil slice. -/
def Repository.GetAll {M σ : Type} (I : Model M) (r : Repository M σ) (h : Heap) (s : σ) :
    (Slice M × Option Error) × Heap × σ :=
  match sq.SelectAll r.table with
  | Except.error err => ((none, some err), h, s)
  | Except.ok (query, args) =>
    match r.db.QueryContext query (args.map (Arg.driverValue h)) s with
    | (Except.error err, s) => ((none, some err), h, s)
    | (Except.ok rows, s) =>
      match rows.Columns with
      | Except.error err => ((none, some err), h, s)
      | Except.ok fields =>
        match Repository.GetAll.loop I r fields (rows.pending.length + 1) rows h none with
        | (Except.error err, _, h) => ((none, some err), h, s)
        | (Except.ok models, rows, h) =>
          let (cerr, rows) := rows.Close
          match cerr with
          | some err => ((none, some err), h, s)
          | none =>
            match rows.Err with
            | some err => ((none, some err), h, s)
            | none => ((models, none), h, s)

/-- Method `Delete`. -/
def Repository.Delete {M σ : Type} (r : Repository M σ) (id : Int) (h : Heap) (s : σ) :
    Option Error × σ :=
  match sq.Delete r.table id with
  | Except.error err => (some err, s)
  | Except.ok (query, args) =>
    match r.db.ExecContext query (args.map (Arg.driverValue h)) s with
    | (Except.error err, s) => (some err, s)
    | (Except.ok _, s) => (none, s)

/-- Method `Update`. The error of `ExecContext` is discarded (`what, _ := …`), so the `err`
returned at the end is still the nil left by the builder. When `ExecContext` fails, `what`
is the nil `sql.Result` and the call `what.LastInsertId()` panics. The two numbers written to
standard output are not modelled. -/
def Repository.Update {M σ : Type} (I : Model M) (r : Repository M σ) (model : M) (id : Int)
    (h : Heap) (s : σ) : Outcome (Option Error) × σ :=
  let m := I.StructToMap model
  let m := m.erase "id"
  match sq.Update r.table m id with
  | Except.error err => (Outcome.ret (some err), s)
  | Except.ok (query, args) =>
    let err : Option Error := none
    match r.db.ExecContext query (args.map (Arg.driverValue h)) s with
    | (Except.error _, s) =>
      (Outcome.panic "runtime error: invalid memory address or nil pointer dereference", s)
    | (Except.ok _, s) => (Outcome.ret err, s)

/-! ## Field reflector -/

namespace strings

/-- The function `strings.ToLower` on the letters `A`–`Z`; other characters are kept. -/
def ToLower (s : String) : String := ⟨s.data.map Char.toLower⟩

end strings

/-- A field of a struct type as `reflect` describes it: its name, and whether it is exported
(only the value of an exported field can be turned into an interface value). -/
structure StructField where
  Name : String
  exported : Bool
  deriving DecidableEq, Repr

/-- A pointer to a struct: the fields of the struct type in declaration order, and the address
of the struct; field `i` is the cell `base + i`. -/
structure StructPtr where
  fields : List StructField
  base : Addr
  deriving DecidableEq, Repr

/-- The loop of `StructToMap` from field `i` on, `rest` being the fields from `i` on. A field
whose lower-cased name is `"reflection"` is skipped; `Interface()` panics on a field that is
not exported; otherwise `m[name] = ptr` with the address of field `i`. -/
def Reflection.StructToMap.loop (base : Addr) : List StructField → Nat → GoMap → Outcome GoMap
  | [], _, m => Outcome.ret m
  | f :: rest, i, m =>
    let name := strings.ToLower f.Name
    if name = "reflection" then Reflection.StructToMap.loop base rest (i + 1) m
    else if !f.exported then
      Outcome.panic
        "reflect.Value.Interface: cannot return value obtained from unexported field or method"
    else Reflection.StructToMap.loop base rest (i + 1) (m.insert name (base + i))

/-- Method `Reflection.StructToMap` on a pointer to a struct. -/
def Reflection.StructToMap (d : StructPtr) : Outcome GoMap :=
  Reflection.StructToMap.loop d.base d.fields 0 ∅

/-! ## Example data -/

/-- A record type with the fields `ID` and `Name`: a record is nil or the address of its
first field; `"id"` names the cell at the address and `"name"` the next one. -/
def itemModel : Model (Option Addr) where
  StructToMap := fun model =>
    match model with
    | some base => AList.insert "id" base (AList.insert "name" (base + 1) ∅)
    | none => ∅
  zero := none

/-- The blank factory for `itemModel`: two fresh cells, an `int` holding `0` and a `string`
holding `""`. -/
def itemNew (h : Heap) : Option Addr × Heap :=
  (some h.next,
   { next := h.next + 2,
     cells := fun a =>
       if a = h.next then Value.int 0
       else if a = h.next + 1 then Value.text ""
       else h.cells a,
     kind := fun a =>
       if a = h.next then Kind.int
       else if a = h.next + 1 then Kind.string
       else h.kind a })

/-- An executor without state that answers every statement with `exec` and every query with
`query`. -/
def stubDB (exec : Except Error Result) (query : Except Error Rows) : DB Unit where
  ExecContext := fun _ _ s => (exec, s)
  QueryContext := fun _ _ s => (query, s)

/-- A repository of items over a stub executor. -/
def stubRepo (exec : Except Error Result) (query : Except Error Rows) :
    Repository (Option Addr) Unit :=
  NewGenericRepository (stubDB exec query) "item" itemNew

/-- An empty memory. -/
def emptyHeap : Heap := { next := 0, cells := fun _ => Value.null, kind := fun _ => Kind.any }

/-- The result of a statement that inserted row `1`. -/
def okResult : Result := { LastInsertId := Except.ok 1, RowsAffected := Except.ok 1 }

/-- An enumeration of maps in the order of their entry lists. -/
def rangeInOrder : MapRange where
  order := fun m => m.entries
  perm := fun _ => List.Perm.refl _

/-- The fields of a struct other than the marker: those whose lower-cased name is not
`"reflection"`. -/
def Reflection.nonMarker (fields : List StructField) : List StructField :=
  fields.filter (fun f => decide (strings.ToLower f.Name ≠ "reflection"))

/-- The keys under which the fields other than the marker are entered. -/
def Reflection.keysOf (fields : List StructField) : List String :=
  (Reflection.nonMarker fields).map (fun f => strings.ToLower f.Name)

/-- A struct with the exported fields `Name` and `NAME` at address `0`. -/
def collidingStruct : StructPtr :=
  { fields := [{ Name := "Name", exported := true }, { Name := "NAME", exported := true }],
    base := 0 }

/-- A struct like `ModelWithReflection`, cut down to the fields `ID` and `Name` and the
embedded `Reflection`, at address `0`. -/
def itemStruct : StructPtr :=
  { fields := [{ Name := "ID", exported := true }, { Name := "Name", exported := true },
      { Name := "Reflection", exported := true }],
    base := 0 }

/-- The state of the executor of the round trip: the last generated id, and the rows stored,
each with its id, its columns and its values. -/
structure Store where
  lastId : Int
  rows : List (Int × List String × List Value)

/-- The executor over which the round trip is stated: an INSERT stores the row (its columns
and values) under a newly generated id, which is the insert id of the result, and a SELECT by
id returns the row stored under that id, or no row. It runs no other statement. -/
def memDB : DB Store where
  ExecContext := fun query args st =>
    match query with
    | Sql.insert _ columns =>
      (Except.ok { LastInsertId := Except.ok (st.lastId + 1), RowsAffected := Except.ok 1 },
       { lastId := st.lastId + 1, rows := (st.lastId + 1, columns, args) :: st.rows })
    | _ => (Except.error (Error.New "statement not supported"), st)
  QueryContext := fun query args st =>
    match query, args with
    | Sql.selectById _, [Value.int id] =>
      match st.rows.find? (fun row => decide (row.1 = id)) with
      | some row => (Except.ok (Rows.opened row.2.1 [row.2.2] none none), st)
      | none => (Except.ok (Rows.opened [] [] none none), st)
    | _, _ => (Except.error (Error.New "query not supported"), st)

/-- A memory holding one item at address `0`: `ID` is `0` and `Name` is `"x"`. -/
def itemHeap : Heap :=
  { next := 2,
    cells := fun a =>
      if a = 0 then Value.int 0 else if a = 1 then Value.text "x" else Value.null,
    kind := fun a => if a = 0 then Kind.int else if a = 1 then Kind.string else Kind.any }

/-- A factory that allocates: the record it returns lives in cells at or above the allocation
frontier and below the new frontier, and the cells below the old frontier keep their
content and their type. -/
def FreshFactory {M : Type} (I : Model M) (new : Heap → M × Heap) : Prop :=
  ∀ h : Heap, h.next ≤ (new h).2.next ∧
    (∀ k p, (I.StructToMap (new h).1).lookup k = some p → h.next ≤ p ∧ p < (new h).2.next) ∧
    (∀ a, a < h.next → (new h).2.load a = h.load a ∧ (new h).2.kind a = h.kind a)

/-- A record with mapping `m` is decoded from `row` under the columns `cols` in memory `h`:
the field that `m` holds for the column at position `i` holds the value at position `i` of
the row, converted to the type of the field (of several columns addressing one field, the
last one). -/
def Decoded (m : GoMap) (cols : List String) (row : List Value) (h : Heap) : Prop :=
  ∀ i c p, cols[i]? = some c → m.lookup c = some p →
    (∀ j c', i < j → cols[j]? = some c' → m.lookup c' ≠ some p) →
    convertAssign (h.kind p) (row.getD i Value.null) = Except.ok (h.load p)

/-! ## Route binder -/

/-- What `encoding/json` does for the type `α`: `Decode` is
`json.NewDecoder(body).Decode(&v)` on a request body, `Encode` gives the text that
`json.NewEncoder(w).Encode(v)` writes, or the error with which it writes nothing. An empty
body does not decode: the decoder reports the end of the input. -/
structure JSON (α : Type) where
  Decode : String → Except Error α
  Encode : α → Except Error String
  decode_empty : Decode "" = Except.error (Error.New "EOF")

namespace http

/-- Status code `http.StatusOK`. -/
def StatusOK : Nat := 200

/-- Status code `http.StatusCreated`. -/
def StatusCreated : Nat := 201

/-- Status code `http.StatusBadRequest`. -/
def StatusBadRequest : Nat := 400

/-- Status code `http.StatusNotFound`. -/
def StatusNotFound : Nat := 404

/-- The part of a `*http.Request` that the handlers read: the value of the path wildcard
`{id}` and the body. -/
structure Request where
  PathValueId : String
  Body : String
  deriving DecidableEq, Repr

/-- An `http.ResponseWriter` as a recorder of the response: the headers, whether the status
line is written, the status code and the body written so far. -/
structure ResponseWriter where
  Header : List (String × String)
  wroteHeader : Bool
  Code : Nat
  Body : String
  deriving DecidableEq, Repr

/-- The recorder before the handler runs. -/
def NewRecorder : ResponseWriter :=
  { Header := [], wroteHeader := false, Code := 200, Body := "" }

/-- The call `w.Header().Set(key, value)`. -/
def ResponseWriter.HeaderSet (w : ResponseWriter) (key value : String) : ResponseWriter :=
  { w with Header := (key, value) :: w.Header.filter (fun kv => decide (kv.1 ≠ key)) }

/-- The call `w.Header().Del(key)`. -/
def ResponseWriter.HeaderDel (w : ResponseWriter) (key : String) : ResponseWriter :=
  { w with Header := w.Header.filter (fun kv => decide (kv.1 ≠ key)) }

/-- The call `w.WriteHeader(code)`: the first call fixes the status code. -/
def ResponseWriter.WriteHeader (w : ResponseWriter) (code : Nat) : ResponseWriter :=
  if w.wroteHeader then w else { w with wroteHeader := true, Code := code }

/-- The call `w.Write(text)`: writes the status line with `200` first if it is not written. -/
def ResponseWriter.Write (w : ResponseWriter) (text : String) : ResponseWriter :=
  { w.WriteHeader StatusOK with Body := (w.WriteHeader StatusOK).Body ++ text }

/-- The function `http.Error`: a plain text reply with the given code, whose body is the
message and a newline. -/
def Error (w : ResponseWriter) (error : String) (code : Nat) : ResponseWriter :=
  ((((w.HeaderDel "Content-Length").HeaderSet "Content-Type" "text/plain; charset=utf-8").HeaderSet
    "X-Content-Type-Options" "nosniff").WriteHeader code).Write (error ++ "\n")

end http

/-- The call `json.NewEncoder(w).Encode(v)` in a handler: the encoder writes the text of `v`,
or nothing when encoding fails (the handler then only logs the error). -/
def encodeTo {α : Type} (J : JSON α) (w : http.ResponseWriter) (v : α) : http.ResponseWriter :=
  match J.Encode v with
  | Except.ok text => w.Write text
  | Except.error _ => w

/-- The text that `json.NewEncoder(w).Encode(map[string]interface{}{"id": out})` writes. -/
def encodeId (out : Int) : String := "\x7b\"id\":" ++ toString out ++ "\x7d\n"

/-- The handler that `RegisterCreate` registers, over the state `σ` of the operation `f`. -/
def RegisterCreate {In σ : Type} (J : JSON In) (f : In → σ → (Int × Option Error) × σ)
    (w : http.ResponseWriter) (r : http.Request) (s : σ) : http.ResponseWriter × σ :=
  match J.Decode r.Body with
  | Except.error _ => (http.Error w "invalid json" http.StatusBadRequest, s)
  | Except.ok in_ =>
    match f in_ s with
    | ((_, some err), s) => (http.Error w err.msg http.StatusBadRequest, s)
    | ((out, none), s) =>
      ((((w.HeaderSet "Content-Type" "application/json").WriteHeader http.StatusCreated).Write
        (encodeId out)), s)

/-- The handler that `RegisterGet` registers. -/
def RegisterGet {Out σ : Type} (J : JSON Out) (f : Int → σ → (Out × Option Error) × σ)
    (w : http.ResponseWriter) (r : http.Request) (s : σ) : http.ResponseWriter × σ :=
  match strconv.Atoi r.PathValueId with
  | Except.error _ => (http.Error w "invalid param" http.StatusBadRequest, s)
  | Except.ok id =>
    match f id s with
    | ((_, some err), s) =>
      if err.IsErrNoRows then (http.Error w "resource not found" http.StatusNotFound, s)
      else (http.Error w err.msg http.StatusBadRequest, s)
    | ((out, none), s) =>
      (encodeTo J ((w.HeaderSet "Content-Type" "application/json").WriteHeader
        http.StatusCreated) out, s)

/-- The handler that `RegisterGetAll` registers. -/
def RegisterGetAll {Out σ : Type} (J : JSON (Slice Out)) (f : σ → (Slice Out × Option Error) × σ)
    (w : http.ResponseWriter) (_r : http.Request) (s : σ) : http.ResponseWriter × σ :=
  match f s with
  | ((_, some err), s) =>
    if err.IsErrNoRows then (http.Error w "resource not found" http.StatusBadRequest, s)
    else (http.Error w err.msg http.StatusBadRequest, s)
  | ((out, none), s) =>
    (encodeTo J ((w.HeaderSet "Content-Type" "application/json").WriteHeader
      http.StatusCreated) out, s)

/-- The handler that `RegisterDelete` registers. -/
def RegisterDelete {σ : Type} (f : Int → σ → Option Error × σ)
    (w : http.ResponseWriter) (r : http.Request) (s : σ) : http.ResponseWriter × σ :=
  match strconv.Atoi r.PathValueId with
  | Except.error _ => (http.Error w "invalid param" http.StatusBadRequest, s)
  | Except.ok id =>
    match f id s with
    | (some err, s) =>
      if err.IsErrNoRows then (http.Error w "resource not found" http.StatusNotFound, s)
      else (http.Error w err.msg http.StatusBadRequest, s)
    | (none, s) =>
      ((w.HeaderSet "Content-Type" "application/json").WriteHeader http.StatusOK, s)

/-- The handler that `RegisterUpdate` registers: the body is decoded before the id is read. -/
def RegisterUpdate {In σ : Type} (J : JSON In) (f : In → Int → σ → Option Error × σ)
    (w : http.ResponseWriter) (r : http.Request) (s : σ) : http.ResponseWriter × σ :=
  match J.Decode r.Body with
  | Except.error _ => (http.Error w "invalid json" http.StatusBadRequest, s)
  | Except.ok in_ =>
    match strconv.Atoi r.PathValueId with
    | Except.error _ => (http.Error w "invalid param" http.StatusBadRequest, s)
    | Except.ok id =>
      match f in_ id s with
      | (some err, s) =>
        if err.IsErrNoRows then (http.Error w "resource not found" http.StatusNotFound, s)
        else (http.Error w "resource not found" http.StatusBadRequest, s)
      | (none, s) =>
        ((w.HeaderSet "Content-Type" "application/json").WriteHeader http.StatusOK, s)

/-- A codec for records that are a name: every body but the empty one decodes to itself, and
a name is written followed by a newline. -/
def nameJSON : JSON String where
  Decode := fun body => if body = "" then Except.error (Error.New "EOF") else Except.ok body
  Encode := fun v => Except.ok (v ++ "\n")
  decode_empty := rfl

/-- A codec for slices of names: the nil slice is written as `null`. -/
def namesJSON : JSON (Slice String) where
  Decode := fun _ => Except.error (Error.New "EOF")
  Encode := fun v =>
    match v with
    | none => Except.ok "null\n"
    | some names => Except.ok ("[" ++ ",".intercalate names ++ "]\n")
  decode_empty := rfl

/-- An operation `Create` that counts its calls in the state and answers `(out, err)`. -/
def countCreate (out : Int) (err : Option Error) : String → Nat → (Int × Option Error) × Nat :=
  fun _ n => ((out, err), n + 1)

/-- An operation `Get` that counts its calls in the state and answers `(out, err)`. -/
def countGet (out : String) (err : Option Error) : Int → Nat → (String × Option Error) × Nat :=
  fun _ n => ((out, err), n + 1)

/-- An operation `GetAll` that counts its calls in the state and answers `(out, err)`. -/
def countGetAll (out : Slice String) (err : Option Error) :
    Nat → (Slice String × Option Error) × Nat :=
  fun n => ((out, err), n + 1)

/-- An operation `Delete` that counts its calls in the state and answers `err`. -/
def countDelete (err : Option Error) : Int → Nat → Option Error × Nat :=
  fun _ n => (err, n + 1)

/-- An operation `Update` that counts its calls in the state and answers `err`. -/
def countUpdate (err : Option Error) : String → Int → Nat → Option Error × Nat :=
  fun _ _ n => (err, n + 1)

/-- The memory after `Scan` has stored `row` into a record with mapping `m`, all of whose
columns `cols` are keys of `m`: the value at each position, converted to the type of the cell
that `m` holds for the column at that position, is stored in that cell, position by
position. -/
def scannedRow (m : GoMap) (cols : List String) (row : List Value) (h : Heap) : Heap :=
  ((List.zip (cols.filterMap (fun c => m.lookup c))
      ((List.range cols.length).map (fun i => row.getD i Value.null))).map
    (fun pv => (pv.1, storedValue (h.kind pv.1) pv.2))).foldl
      (fun h pv => h.store pv.1 pv.2) h

/-- Every value of `row` converts to the type of the field that `m` holds for its column, in
memory `h`. -/
def Convertible (m : GoMap) (cols : List String) (row : List Value) (h : Heap) : Prop :=
  ∀ i c p, cols[i]? = some c → m.lookup c = some p →
    ∃ v, convertAssign (h.kind p) (row.getD i Value.null) = Except.ok v

/-! ## Theorems -/

/-- The loop of `Create` with an arbitrary start: it appends the keys and the references of the
entries other than `"id"`, in the order of the enumeration. -/
theorem Create_collect_aux (it : List (Sigma (fun _ : String => Addr)))
    (acc : List String × List Addr) :
    it.foldl
      (fun (acc : List String × List Addr) kv =>
        if kv.1 = "id" then acc else (acc.1 ++ [kv.1], acc.2 ++ [kv.2])) acc =
    (acc.1 ++ (it.filter (fun kv => decide (kv.1 ≠ "id"))).map (fun kv => kv.1),
     acc.2 ++ (it.filter (fun kv => decide (kv.1 ≠ "id"))).map (fun kv => kv.2)) := by
  induction it generalizing acc with
  | nil => simp
  | cons kv rest ih =>
    rw [List.foldl_cons, ih]
    by_cases hk : kv.1 = "id"
    · simp [hk]
    · simp [hk]

/-- The loop of `Create` yields the keys and the references of the entries other than `"id"`,
both in the order of the enumeration. -/
theorem Create_collect_eq (it : List (Sigma (fun _ : String => Addr))) :
    Repository.Create.collect it =
      ((it.filter (fun kv => decide (kv.1 ≠ "id"))).map (fun kv => kv.1),
       (it.filter (fun kv => decide (kv.1 ≠ "id"))).map (fun kv => kv.2)) := by
  unfold Repository.Create.collect
  rw [Create_collect_aux]
  simp

/-- An entry that `range` yields is an entry of the map. -/
theorem GoMap_lookup_of_mem_order (rng : MapRange) (m : GoMap)
    (kv : Sigma (fun _ : String => Addr)) (hkv : kv ∈ rng.order m) :
    m.lookup kv.1 = some kv.2 := by
  have hmem : kv ∈ m.entries := (rng.perm m).mem_iff.mp hkv
  obtain ⟨k, v⟩ := kv
  exact (List.mem_dlookup_iff m.nodupKeys).mpr hmem

/-- What the loop of `Create` collects, for every mapping and every enumeration of it: as many
values as columns, at each position the reference the mapping holds for the column, no column
twice, and as columns exactly the keys other than `"id"`. -/
theorem Create_collect_spec (rng : MapRange) (m : GoMap) :
    (Repository.Create.collect (rng.order m)).1.length =
      (Repository.Create.collect (rng.order m)).2.length ∧
    (Repository.Create.collect (rng.order m)).1.map (fun k => m.lookup k) =
      (Repository.Create.collect (rng.order m)).2.map some ∧
    (Repository.Create.collect (rng.order m)).1.Nodup ∧
    ∀ k : String, k ∈ (Repository.Create.collect (rng.order m)).1 ↔ (k ∈ m ∧ k ≠ "id") := by
  rw [Create_collect_eq]
  refine ⟨by simp, ?_, ?_, ?_⟩
  · simp only [List.map_map]
    apply List.map_congr_left
    intro kv hkv
    exact GoMap_lookup_of_mem_order rng m kv (List.mem_of_mem_filter hkv)
  · have hnd : ((rng.order m).map (fun kv => kv.1)).Nodup := by
      have hp : ((rng.order m).map (fun kv => kv.1)).Perm m.keys := (rng.perm m).map _
      exact hp.nodup_iff.mpr m.keys_nodup
    exact (List.Nodup.sublist ((List.filter_sublist _).map _) hnd)
  · intro k
    simp only [List.mem_map, List.mem_filter, decide_eq_true_eq]
    constructor
    · rintro ⟨kv, ⟨hmem, hne⟩, rfl⟩
      refine ⟨?_, hne⟩
      rw [AList.mem_keys]
      have : kv ∈ m.entries := (rng.perm m).mem_iff.mp hmem
      exact List.mem_keys_of_mem this
    · rintro ⟨hk, hne⟩
      rw [AList.mem_keys] at hk
      obtain ⟨v, hv⟩ := List.exists_of_mem_keys hk
      exact ⟨⟨k, v⟩, ⟨(rng.perm m).mem_iff.mpr hv, hne⟩, rfl⟩

/-- Storing a list of values leaves every cell that is not written unchanged. -/
theorem storeAll_load_of_not_mem (l : List (Addr × Value)) (h : Heap) (p : Addr)
    (hp : ∀ pv ∈ l, pv.1 ≠ p) :
    (l.foldl (fun h pv => h.store pv.1 pv.2) h).load p = h.load p := by
  induction l generalizing h with
  | nil => rfl
  | cons pv rest ih =>
    rw [List.foldl_cons, ih _ (fun q hq => hp q (List.mem_cons_of_mem _ hq))]
    have hne : pv.1 ≠ p := hp pv (List.mem_cons_self _ _)
    simp [Heap.load, Heap.store, Function.update, Ne.symm hne]

/-- Storing a list of values does not move the allocation frontier. -/
theorem storeAll_next (l : List (Addr × Value)) (h : Heap) :
    (l.foldl (fun h pv => h.store pv.1 pv.2) h).next = h.next := by
  induction l generalizing h with
  | nil => rfl
  | cons pv rest ih => rw [List.foldl_cons, ih]; rfl

/-- Storing values through destinations in turn: a cell holds the value of the last position
whose destination it is. -/
theorem storeAll_load_last (ds : List Addr) (vs : List Value) (h : Heap) (i : Nat) (p : Addr)
    (v : Value) (hd : ds[i]? = some p) (hv : vs[i]? = some v)
    (hlast : ∀ j, i < j → ds[j]? ≠ some p) :
    ((List.zip ds vs).foldl (fun h pv => h.store pv.1 pv.2) h).load p = v := by
  induction ds generalizing vs h i with
  | nil => simp at hd
  | cons d ds ih =>
    cases vs with
    | nil => simp at hv
    | cons w ws =>
      cases i with
      | zero =>
        simp only [List.getElem?_cons_zero, Option.some.injEq] at hd hv
        subst hd hv
        rw [List.zip_cons_cons, List.foldl_cons]
        rw [storeAll_load_of_not_mem]
        · simp [Heap.load, Heap.store]
        · intro pv hpv hEq
          obtain ⟨j, hj, hget⟩ := List.getElem_of_mem hpv
          have hj' : j < ds.length := by
            have := hj; simp only [List.length_zip] at this; omega
          have := hlast (j + 1) (Nat.succ_pos j)
          apply this
          rw [List.getElem?_cons_succ, List.getElem?_eq_getElem hj']
          have : pv.1 = ds[j] := by rw [← hget]; simp
          rw [← this, hEq]
      | succ i =>
        rw [List.zip_cons_cons, List.foldl_cons]
        apply ih ws _ i
        · simpa using hd
        · simpa using hv
        · intro j hj
          have := hlast (j + 1) (by omega)
          simpa using this

/-- The destinations that `set` collects are the references of the columns that are keys of
the mapping, in column order. -/
theorem set_dest_eq (validate : GoMap) (fields : List String) (acc : List Addr) :
    fields.foldl
      (fun (dest : List Addr) field =>
        match validate.lookup field with
        | some p => dest ++ [p]
        | none => dest) acc =
    acc ++ fields.filterMap (fun field => validate.lookup field) := by
  induction fields generalizing acc with
  | nil => simp
  | cons f rest ih =>
    rw [List.foldl_cons, ih]
    cases hf : validate.lookup f <;> simp [List.filterMap_cons, hf]

/-- When every column is a key, there is one destination per column: the reference of that
column. -/
theorem filterMap_lookup_getElem? (m : GoMap) (cols : List String)
    (hcols : ∀ c ∈ cols, c ∈ m) (j : Nat) :
    (cols.filterMap (fun c => m.lookup c))[j]? = (cols[j]?).bind (fun c => m.lookup c) := by
  induction cols generalizing j with
  | nil => simp
  | cons c cs ih =>
    have hc : c ∈ m := hcols c (List.mem_cons_self _ _)
    obtain ⟨p, hp⟩ := Option.isSome_iff_exists.mp (AList.lookup_isSome.mpr hc)
    rw [List.filterMap_cons, hp]
    cases j with
    | zero => simp [hp]
    | succ j =>
      simp only [List.getElem?_cons_succ]
      exact ih (fun c' hc' => hcols c' (List.mem_cons_of_mem _ hc')) j

/-- When every column is a key, `set` collects as many destinations as there are columns. -/
theorem filterMap_lookup_length (m : GoMap) (cols : List String)
    (hcols : ∀ c ∈ cols, c ∈ m) :
    (cols.filterMap (fun c => m.lookup c)).length = cols.length := by
  induction cols with
  | nil => rfl
  | cons c cs ih =>
    have hc : c ∈ m := hcols c (List.mem_cons_self _ _)
    obtain ⟨p, hp⟩ := Option.isSome_iff_exists.mp (AList.lookup_isSome.mpr hc)
    rw [List.filterMap_cons, hp]
    simp [ih (fun c' hc' => hcols c' (List.mem_cons_of_mem _ hc'))]

/-- Method `set` calls `scan` once, with the references of the mapped columns. -/
theorem set_eq {M σ : Type} (I : Model M) (r : Repository M σ) (fields : List String)
    (scan : List Addr → Heap → Option Error × Heap) (model : M) (h : Heap) :
    Repository.set I r fields scan model h =
      scan (fields.filterMap (fun field => (I.StructToMap model).lookup field)) h := by
  unfold Repository.set
  simp only [set_dest_eq, List.nil_append]

/-- On an open cursor with a current row and no recorded error, `Scan` with a number of
destinations other than the number of columns fails and stores nothing. -/
theorem Scan_wrong_length (rs : Rows) (lastcols : List Value) (dest : List Addr) (h : Heap)
    (herr : rs.lasterr = none) (hopen : rs.closed = false) (hrow : rs.lastcols = some lastcols)
    (hlen : dest.length ≠ lastcols.length) :
    rs.Scan dest h = (some (errScanArgs lastcols.length dest.length), h) := by
  simp [Rows.Scan, herr, hopen, hrow, hlen]

/-- The buffer of the current row has one slot per column; slot `i` holds the value at
position `i` of the row. -/
theorem lastcols_getElem? (n : Nat) (row : List Value) (i : Nat) (hi : i < n) :
    ((List.range n).map (fun i => row.getD i Value.null))[i]? = some (row.getD i Value.null) := by
  simp [hi]

/-- When some column is no key of the mapping, `set` collects fewer destinations than there
are columns. -/
theorem filterMap_lookup_length_lt (m : GoMap) (cols : List String) (c : String)
    (hc : c ∈ cols) (hnot : c ∉ m) :
    (cols.filterMap (fun c => m.lookup c)).length < cols.length := by
  induction cols with
  | nil => simp at hc
  | cons d ds ih =>
    have hle : (ds.filterMap (fun c => m.lookup c)).length ≤ ds.length :=
      List.length_filterMap_le _ _
    rw [List.filterMap_cons]
    cases hd : m.lookup d with
    | none => simp only [List.length_cons]; omega
    | some p =>
      have hcd : c ≠ d := by
        rintro rfl
        exact hnot (AList.lookup_isSome.mp (by rw [hd]; rfl))
      have hc' : c ∈ ds := by
        rcases List.mem_cons.mp hc with h1 | h1
        · exact absurd h1 hcd
        · exact h1
      simp only [List.length_cons]
      have := ih hc'
      omega

/-- Method `Next` on an open cursor with a pending row. -/
theorem Next_cons (rs : Rows) (row : List Value) (rest : List (List Value))
    (hopen : rs.closed = false) (hpen : rs.pending = row :: rest) :
    rs.Next = (true, { rs with
      pending := rest,
      lastcols := some ((List.range rs.columns.length).map (fun i => row.getD i Value.null)) }) := by
  simp [Rows.Next, hopen, hpen]

/-- Method `Next` on an open cursor without pending rows, when the driver reports neither a
fetch error nor a close error. -/
theorem Next_nil (rs : Rows) (hopen : rs.closed = false) (hpen : rs.pending = [])
    (hfetch : rs.fetchErr = none) (hclose : rs.closeErr = none) :
    rs.Next = (false, { rs with lasterr := none, closed := true }) := by
  simp [Rows.Next, Rows.Close, hopen, hpen, hfetch, hclose]

/-- Every key of the mapping of a blank item is `"id"` or `"name"`, and both are keys. -/
theorem itemNew_keys (h0 : Heap) :
    ∀ c ∈ ["id", "name"], c ∈ itemModel.StructToMap (itemNew h0).1 := by
  intro c hc
  simp only [itemModel, itemNew, AList.mem_insert]
  simp only [List.mem_cons, List.mem_singleton, List.not_mem_nil, or_false] at hc
  rcases hc with h1 | h1
  · exact Or.inl h1
  · exact Or.inr (Or.inl h1)

/-- In the mapping of an item, a key other than `"id"` that holds a reference is `"name"`. -/
theorem itemModel_lookup_ne_id (base : Addr) (k : String) (p : Addr) (hk : k ≠ "id")
    (hp : (itemModel.StructToMap (some base)).lookup k = some p) : k = "name" := by
  by_contra hne
  simp only [itemModel] at hp
  rw [AList.lookup_insert_ne hk, AList.lookup_insert_ne hne, AList.lookup_empty] at hp
  exact Option.noConfusion hp

/-- Storing a list of values changes the type of no cell. -/
theorem storeAll_kind (l : List (Addr × Value)) (h : Heap) :
    (l.foldl (fun h pv => h.store pv.1 pv.2) h).kind = h.kind := by
  induction l generalizing h with
  | nil => rfl
  | cons pv rest ih => rw [List.foldl_cons, ih]; rfl

/-- Storing a list of pairs in turn: a cell holds the value of the last pair that addresses
it. -/
theorem storePairs_load_last (l : List (Addr × Value)) (h : Heap) (i : Nat) (p : Addr)
    (v : Value) (hi : l[i]? = some (p, v))
    (hlast : ∀ j pv, i < j → l[j]? = some pv → pv.1 ≠ p) :
    (l.foldl (fun h pv => h.store pv.1 pv.2) h).load p = v := by
  induction l generalizing h i with
  | nil => simp at hi
  | cons q rest ih =>
    cases i with
    | zero =>
      simp only [List.getElem?_cons_zero, Option.some.injEq] at hi
      subst hi
      rw [List.foldl_cons, storeAll_load_of_not_mem]
      · simp [Heap.load, Heap.store]
      · intro pv hpv
        obtain ⟨j, hj⟩ := List.mem_iff_getElem?.mp hpv
        exact hlast (j + 1) pv (Nat.succ_pos j) (by simpa using hj)
    | succ i =>
      rw [List.foldl_cons]
      apply ih _ i (by simpa using hi)
      intro j pv hj hjv
      exact hlast (j + 1) pv (Nat.succ_lt_succ hj) (by simpa using hjv)

/-- When every value converts to the type of its destination, the loop of `Scan` ends without
error and has stored each converted value through its destination, in turn. -/
theorem Scan_assign_ok (columns : List String) (l : List (Addr × Value)) (i : Nat) (h : Heap)
    (hconv : ∀ pv ∈ l, ∃ v, convertAssign (h.kind pv.1) pv.2 = Except.ok v) :
    Rows.Scan.assign columns i l h =
      (none, (l.map (fun pv => (pv.1, storedValue (h.kind pv.1) pv.2))).foldl
        (fun h pv => h.store pv.1 pv.2) h) := by
  induction l generalizing i h with
  | nil => rfl
  | cons pv rest ih =>
    obtain ⟨v, hv⟩ := hconv pv (List.mem_cons_self _ _)
    have hsv : storedValue (h.kind pv.1) pv.2 = v := by simp [storedValue, hv]
    rw [Rows.Scan.assign]
    simp only [hv, List.map_cons, List.foldl_cons, hsv]
    exact ih (i + 1) (h.store pv.1 v)
      (fun q hq => hconv q (List.mem_cons_of_mem _ hq))

/-- On an open cursor with a current row and no recorded error, `Scan` with one destination
per column, each value converting to the type of its destination, succeeds and stores the
converted row through the destinations. -/
theorem Scan_ok (rs : Rows) (lastcols : List Value) (dest : List Addr) (h : Heap)
    (herr : rs.lasterr = none) (hopen : rs.closed = false) (hrow : rs.lastcols = some lastcols)
    (hlen : dest.length = lastcols.length)
    (hconv : ∀ pv ∈ List.zip dest lastcols, ∃ v, convertAssign (h.kind pv.1) pv.2 = Except.ok v) :
    rs.Scan dest h =
      (none, ((List.zip dest lastcols).map
        (fun pv => (pv.1, storedValue (h.kind pv.1) pv.2))).foldl
          (fun h pv => h.store pv.1 pv.2) h) := by
  simp only [Rows.Scan, herr, hopen, hrow, hlen, ne_eq, not_true_eq_false, if_false,
    Bool.false_eq_true]
  exact Scan_assign_ok rs.columns _ 0 h hconv

/-- The pairs that `Scan` stores for a row whose columns are all keys of the mapping: at
position `j` the reference of column `j` and the value at position `j` of the row. -/
theorem rowPairs_getElem? (m : GoMap) (cols : List String) (row : List Value)
    (hcols : ∀ c ∈ cols, c ∈ m) (j : Nat) (pv : Addr × Value) :
    (List.zip (cols.filterMap (fun c => m.lookup c))
      ((List.range cols.length).map (fun i => row.getD i Value.null)))[j]? = some pv ↔
    ∃ c, cols[j]? = some c ∧ m.lookup c = some pv.1 ∧ pv.2 = row.getD j Value.null := by
  rw [List.getElem?_zip_eq_some, filterMap_lookup_getElem? _ _ hcols]
  constructor
  · rintro ⟨h1, h2⟩
    cases hc : cols[j]? with
    | none => rw [hc] at h1; simp at h1
    | some c =>
      rw [hc] at h1
      have hj : j < cols.length := by
        by_contra hcon
        rw [List.getElem?_eq_none (by omega)] at hc
        exact Option.noConfusion hc
      rw [lastcols_getElem? _ _ _ hj] at h2
      exact ⟨c, rfl, h1, (Option.some.inj h2).symm⟩
  · rintro ⟨c, hc, hl, hv⟩
    have hj : j < cols.length := by
      by_contra hcon
      rw [List.getElem?_eq_none (by omega)] at hc
      exact Option.noConfusion hc
    rw [hc, lastcols_getElem? _ _ _ hj, hv]
    exact ⟨hl, rfl⟩

/-- A row scanned into a record: the pairs stored all convert, every field holds the converted
value of the last column that addresses it, a cell that no column addresses is unchanged,
and neither the types nor the allocation frontier change. -/
theorem scannedRow_spec (m : GoMap) (cols : List String) (row : List Value) (h : Heap)
    (hcols : ∀ c ∈ cols, c ∈ m) (hconv : Convertible m cols row h) :
    (∀ pv ∈ List.zip (cols.filterMap (fun c => m.lookup c))
        ((List.range cols.length).map (fun i => row.getD i Value.null)),
      ∃ v, convertAssign (h.kind pv.1) pv.2 = Except.ok v) ∧
    (∀ i c p, cols[i]? = some c → m.lookup c = some p →
      (∀ j c', i < j → cols[j]? = some c' → m.lookup c' ≠ some p) →
      convertAssign (h.kind p) (row.getD i Value.null) =
        Except.ok ((scannedRow m cols row h).load p)) ∧
    (∀ p, (∀ c ∈ cols, m.lookup c ≠ some p) → (scannedRow m cols row h).load p = h.load p) ∧
    (scannedRow m cols row h).kind = h.kind ∧
    (scannedRow m cols row h).next = h.next := by
  refine ⟨?_, ?_, ?_, storeAll_kind _ _, storeAll_next _ _⟩
  · intro pv hpv
    obtain ⟨j, hj⟩ := List.mem_iff_getElem?.mp hpv
    obtain ⟨c, hc, hl, hv⟩ := (rowPairs_getElem? m cols row hcols j pv).mp hj
    rw [hv]
    exact hconv j c pv.1 hc hl
  · intro i c p hi hp hlast
    obtain ⟨v, hv⟩ := hconv i c p hi hp
    have hload : (scannedRow m cols row h).load p = v := by
      apply storePairs_load_last _ _ i p v
      · rw [List.getElem?_map,
          (rowPairs_getElem? m cols row hcols i (p, row.getD i Value.null)).mpr
            ⟨c, hi, hp, rfl⟩]
        simp only [Option.map_some', storedValue, hv]
      · intro j pv hj hjv
        rw [List.getElem?_map] at hjv
        cases hz : (List.zip (cols.filterMap (fun c => m.lookup c))
            ((List.range cols.length).map (fun i => row.getD i Value.null)))[j]? with
        | none => rw [hz] at hjv; simp at hjv
        | some qv =>
          rw [hz] at hjv
          simp only [Option.map_some', Option.some.injEq] at hjv
          obtain ⟨c', hc', hl', _⟩ := (rowPairs_getElem? m cols row hcols j qv).mp hz
          intro hEq
          apply hlast j c' hj hc'
          rw [hl', ← hjv] at *
          simpa using congrArg some hEq
    rw [hload, hv]
  · intro p hp
    apply storeAll_load_of_not_mem
    intro pv hpv hEq
    obtain ⟨qv, hqv, hf⟩ := List.mem_map.mp hpv
    obtain ⟨j, hj⟩ := List.mem_iff_getElem?.mp hqv
    obtain ⟨c, hc, hl, _⟩ := (rowPairs_getElem? m cols row hcols j qv).mp hj
    apply hp c (List.getElem?_mem hc)
    rw [hl, ← hEq, ← hf]

/-- Method `set` with the `Scan` of an open cursor whose current row is `row`, for a record
all of whose columns are keys and whose values all convert: no error, and the row is
stored. -/
theorem set_Scan_row {M σ : Type} (I : Model M) (r : Repository M σ) (rs : Rows)
    (row : List Value) (model : M) (h : Heap)
    (herr : rs.lasterr = none) (hopen : rs.closed = false)
    (hrow : rs.lastcols =
      some ((List.range rs.columns.length).map (fun i => row.getD i Value.null)))
    (hcols : ∀ c ∈ rs.columns, c ∈ I.StructToMap model)
    (hconv : Convertible (I.StructToMap model) rs.columns row h) :
    Repository.set I r rs.columns rs.Scan model h =
      (none, scannedRow (I.StructToMap model) rs.columns row h) := by
  rw [set_eq, Scan_ok rs _ _ h herr hopen hrow
    (by rw [filterMap_lookup_length _ _ hcols]; simp)
    (scannedRow_spec _ _ row h hcols hconv).1]
  rfl

/-- What `Get` does with a first row whose column names are all keys of the mapping of the
blank record and whose values all convert to the types of their fields: it returns that
record without error, and the memory is that of the factory with the row stored. -/
theorem Get_scan_spec {M σ : Type} (I : Model M) (r : Repository M σ) (id : Int) (h : Heap)
    (s s1 : σ) (cols : List String) (row : List Value) (rest : List (List Value))
    (fetchErr : Option Error)
    (hq : r.db.QueryContext (Sql.selectById r.table) [Value.int id] s =
      (Except.ok (Rows.opened cols (row :: rest) fetchErr none), s1))
    (hcols : ∀ c ∈ cols, c ∈ I.StructToMap (r.new h).1)
    (hconv : Convertible (I.StructToMap (r.new h).1) cols row (r.new h).2) :
    Repository.Get I r id h s =
      (((r.new h).1, none), scannedRow (I.StructToMap (r.new h).1) cols row (r.new h).2, s1) := by
  have hnext : (Rows.opened cols (row :: rest) fetchErr none).Next =
      (true, { columns := cols, pending := rest, fetchErr := fetchErr, closeErr := none,
               lastcols := some ((List.range cols.length).map (fun i => row.getD i Value.null)),
               lasterr := none, closed := false }) := rfl
  have hset := set_Scan_row I r
    { columns := cols, pending := rest, fetchErr := fetchErr, closeErr := none,
      lastcols := some ((List.range cols.length).map (fun i => row.getD i Value.null)),
      lasterr := none, closed := false } row (r.new h).1 (r.new h).2 rfl rfl rfl hcols hconv
  simp only [Repository.Get, sq.SelectById, List.map, Arg.driverValue, hq, hnext,
    Rows.Columns, Bool.not_true, Bool.false_eq_true, if_false]
  simp only [] at hset
  rw [hset]
  simp [Rows.Close, Rows.Err]

/-- C4, as stated, fails: for the row `("abc", NULL)` under the columns `id` and `name`, which
are both keys of the mapping of an item (an `int` and a `string`), `Get` returns the zero
record and the error of `Scan` for the first value, which is no integer. -/
theorem Get_unconvertible_value_fails :
    (∀ c ∈ ["id", "name"], c ∈ itemModel.StructToMap (itemNew emptyHeap).1) ∧
    ((stubRepo (Except.ok okResult)
        (Except.ok (Rows.opened ["id", "name"] [[Value.text "abc", Value.null]] none none))).Get
        itemModel 1 emptyHeap ()).1 =
      (none, some (errScanColumn ["id", "name"] 0
        (Error.New "converting driver.Value type string (\"abc\") to a int: invalid syntax"))) := by
  decide

/-- C4, amended: when the query succeeds with a cursor whose first row is `row`, whose column
names are all keys of the mapping of the record that the factory returns, and each of whose
values converts to the type of the field that the mapping holds for its column, `Get`
returns that record without error. Afterwards the field that the mapping holds for the column
at position `i` holds the value at position `i` of the row, converted to the type of the field
(of several columns addressing one field, the last one), and every cell that no column
addresses holds what it held when the factory returned. -/
theorem Get_decodes_row {M σ : Type} (I : Model M) (r : Repository M σ) (id : Int) (h : Heap)
    (s s1 : σ) (cols : List String) (row : List Value) (rest : List (List Value))
    (fetchErr : Option Error)
    (hq : r.db.QueryContext (Sql.selectById r.table) [Value.int id] s =
      (Except.ok (Rows.opened cols (row :: rest) fetchErr none), s1))
    (hcols : ∀ c ∈ cols, c ∈ I.StructToMap (r.new h).1)
    (hconv : ∀ i c p, cols[i]? = some c → (I.StructToMap (r.new h).1).lookup c = some p →
      ∃ v, convertAssign ((r.new h).2.kind p) (row.getD i Value.null) = Except.ok v) :
    ∃ h1, Repository.Get I r id h s = (((r.new h).1, none), h1, s1) ∧
      (∀ i c p, cols[i]? = some c → (I.StructToMap (r.new h).1).lookup c = some p →
        (∀ j c', i < j → cols[j]? = some c' →
          (I.StructToMap (r.new h).1).lookup c' ≠ some p) →
        convertAssign ((r.new h).2.kind p) (row.getD i Value.null) = Except.ok (h1.load p)) ∧
      (∀ p, (∀ c ∈ cols, (I.StructToMap (r.new h).1).lookup c ≠ some p) →
        h1.load p = (r.new h).2.load p) :=
  ⟨_, Get_scan_spec I r id h s s1 cols row rest fetchErr hq hcols hconv,
    (scannedRow_spec _ cols row _ hcols hconv).2.1,
    (scannedRow_spec _ cols row _ hcols hconv).2.2.1⟩

/-- A row of an integer and a text converts to the types of the fields `id` and `name` of a
blank item. -/
theorem itemRow_convertible (h0 : Heap) (n : Int) (t : String) :
    Convertible (itemModel.StructToMap (itemNew h0).1) ["id", "name"]
      [Value.int n, Value.text t] (itemNew h0).2 := by
  intro i c p hi hp
  match i, hi with
  | 0, hi =>
    simp only [List.getElem?_cons_zero, Option.some.injEq] at hi
    subst hi
    simp only [itemModel, itemNew, AList.lookup_insert, Option.some.injEq] at hp
    subst hp
    exact ⟨Value.int n, by simp [itemNew, convertAssign]⟩
  | 1, hi =>
    simp only [List.getElem?_cons_succ, List.getElem?_cons_zero, Option.some.injEq] at hi
    subst hi
    simp only [itemModel, itemNew] at hp
    rw [AList.lookup_insert_ne (by decide), AList.lookup_insert] at hp
    have hp' := Option.some.inj hp
    subst hp'
    exact ⟨Value.text t, by simp [itemNew, convertAssign]⟩
  | i + 2, hi => simp at hi

/-- C4, amended, at an item repository whose query yields the row `(1, "x")` under the columns
`id` and `name`: `Get` returns the fresh record at address `0` without error, with `1` and
`"x"` in its fields. -/
theorem Get_decodes_row_witness :
    (∀ c ∈ ["id", "name"], c ∈ itemModel.StructToMap (itemNew emptyHeap).1) ∧
    ∃ h1, Repository.Get itemModel
        (stubRepo (Except.ok okResult)
          (Except.ok (Rows.opened ["id", "name"] [[Value.int 1, Value.text "x"]] none none)))
        1 emptyHeap () = ((some 0, none), h1, ()) ∧
      h1.load 0 = Value.int 1 ∧ h1.load 1 = Value.text "x" := by
  refine ⟨by decide, ?_⟩
  obtain ⟨h1, hget, hpos, _⟩ := Get_decodes_row itemModel
    (stubRepo (Except.ok okResult)
      (Except.ok (Rows.opened ["id", "name"] [[Value.int 1, Value.text "x"]] none none)))
    1 emptyHeap () () ["id", "name"] [Value.int 1, Value.text "x"] [] none rfl (by decide)
    (itemRow_convertible emptyHeap 1 "x")
  refine ⟨h1, hget, ?_, ?_⟩
  · have := hpos 0 "id" 0 rfl (by decide) (by
      intro j c' hj hc
      match j, hj, hc with
      | 1, _, hc =>
        simp only [List.getElem?_cons_succ, List.getElem?_cons_zero, Option.some.injEq] at hc
        subst hc; decide
      | j + 2, _, hc => simp at hc)
    exact (Except.ok.inj this).symm
  · have := hpos 1 "name" 1 rfl (by decide) (by
      intro j c' hj hc
      match j, hj, hc with
      | j + 2, _, hc => simp at hc)
    exact (Except.ok.inj this).symm

/-- The loop of `GetAll` on an open cursor whose columns are all keys of the mapping of every
blank record and whose values all convert to the types of their fields, with a factory that
allocates and a driver that reports no error: it appends one record of the factory per
pending row, in row order; each record is decoded from its row and lies above the records
created before it; memory below the old allocation frontier is unchanged; and the cursor
ends closed without a recorded error. -/
theorem GetAll_loop_spec {M σ : Type} (I : Model M) (r : Repository M σ) (cols : List String)
    (hfresh : FreshFactory I r.new)
    (hcols : ∀ h0, ∀ c ∈ cols, c ∈ I.StructToMap (r.new h0).1)
    (data : List (List Value))
    (hconv : ∀ h0, ∀ row ∈ data,
      Convertible (I.StructToMap (r.new h0).1) cols row (r.new h0).2) :
    ∀ (fuel : Nat) (rs : Rows) (h : Heap) (models : Slice M),
      rs.closed = false → rs.lasterr = none → rs.columns = cols → rs.fetchErr = none →
      rs.closeErr = none → rs.pending = data → data.length < fuel →
      ∃ (res : Slice M) (newM : List M) (rs1 : Rows) (h1 : Heap),
        Repository.GetAll.loop I r cols fuel rs h models = (Except.ok res, rs1, h1) ∧
        Slice.elems res = Slice.elems models ++ newM ∧
        (data = [] → res = models) ∧
        newM.length = data.length ∧
        rs1.closed = true ∧ rs1.lasterr = none ∧ rs1.closeErr = none ∧
        h.next ≤ h1.next ∧
        (∀ a, a < h.next → h1.load a = h.load a ∧ h1.kind a = h.kind a) ∧
        (∀ (i : Nat) model, newM[i]? = some model →
          (∃ h0, model = (r.new h0).1) ∧
          (∀ k p, (I.StructToMap model).lookup k = some p → h.next ≤ p) ∧
          ∀ row, data[i]? = some row → Decoded (I.StructToMap model) cols row h1) ∧
        (∀ (i i1 : Nat) model model1 k k1 p p1, i < i1 → newM[i]? = some model →
          newM[i1]? = some model1 → (I.StructToMap model).lookup k = some p →
          (I.StructToMap model1).lookup k1 = some p1 → p < p1) := by
  induction data with
  | nil =>
    intro fuel rs h models hopen herr _ hfetch hclose hpen hfuel
    cases fuel with
    | zero => exact absurd hfuel (Nat.lt_irrefl 0)
    | succ f =>
      refine ⟨models, [], { rs with lasterr := none, closed := true }, h, ?_, by simp,
        fun _ => rfl, rfl, rfl, rfl, hclose, Nat.le_refl _, fun _ _ => ⟨rfl, rfl⟩, ?_, ?_⟩
      · simp only [Repository.GetAll.loop, Next_nil rs hopen hpen hfetch hclose]
        simp
      · intro i model hi; simp at hi
      · intro i i1 model model1 k k1 p p1 _ hi; simp at hi
  | cons row rest ih =>
    intro fuel rs h models hopen herr hcolumns hfetch hclose hpen hfuel
    cases fuel with
    | zero => exact absurd hfuel (Nat.not_lt_zero _)
    | succ f =>
      subst hcolumns
      obtain ⟨hnext, hrefs, hframe⟩ := hfresh h
      have hconvRow : Convertible (I.StructToMap (r.new h).1) rs.columns row (r.new h).2 :=
        hconv h row (List.mem_cons_self _ _)
      obtain ⟨_, hdec, hkeep, hbkind, hbnext⟩ :=
        scannedRow_spec (I.StructToMap (r.new h).1) rs.columns row (r.new h).2 (hcols h)
          hconvRow
      have hset : Repository.set I r rs.columns
          (Rows.Scan { rs with
            pending := rest,
            lastcols := some ((List.range rs.columns.length).map
              (fun i => row.getD i Value.null)) }) (r.new h).1 (r.new h).2 =
          (none, scannedRow (I.StructToMap (r.new h).1) rs.columns row (r.new h).2) :=
        set_Scan_row I r
          { rs with
            pending := rest,
            lastcols := some ((List.range rs.columns.length).map
              (fun i => row.getD i Value.null)) } row (r.new h).1 (r.new h).2 herr hopen rfl
          (hcols h) hconvRow
      obtain ⟨res, newM, rs2, h1, hloop, helems, _, hlenM, hcl, hle, hce, hnx, hfr, hmod, hsep⟩ :=
        ih (fun h0 row1 hrow1 => hconv h0 row1 (List.mem_cons_of_mem _ hrow1)) f
          { rs with
            pending := rest,
            lastcols := some ((List.range rs.columns.length).map
              (fun i => row.getD i Value.null)) }
          (scannedRow (I.StructToMap (r.new h).1) rs.columns row (r.new h).2)
          (Slice.append models (r.new h).1)
          hopen herr rfl hfetch hclose rfl
          (by simp only [List.length_cons] at hfuel; omega)
      rw [hbnext] at hnx hfr hmod
      refine ⟨res, (r.new h).1 :: newM, rs2, h1, ?_, ?_, ?_, ?_, hcl, hle, hce, ?_, ?_, ?_, ?_⟩
      · simp only [Repository.GetAll.loop, Next_cons rs row rest hopen hpen,
          Bool.not_true, Bool.false_eq_true, if_false, hset]
        exact hloop
      · rw [helems]; simp [Slice.append, Slice.elems]
      · intro hcon; exact absurd hcon (List.cons_ne_nil _ _)
      · simp [hlenM]
      · exact Nat.le_trans hnext hnx
      · intro a ha
        have hnot : ∀ c ∈ rs.columns, (I.StructToMap (r.new h).1).lookup c ≠ some a := by
          intro c _ hl
          exact absurd (hrefs c a hl).1 (Nat.not_le_of_lt ha)
        obtain ⟨hl1, hk1⟩ := hfr a (Nat.lt_of_lt_of_le ha hnext)
        refine ⟨?_, ?_⟩
        · rw [hl1, hkeep a hnot, (hframe a ha).1]
        · rw [hk1, hbkind, (hframe a ha).2]
      · intro i model hi
        cases i with
        | zero =>
          simp only [List.getElem?_cons_zero, Option.some.injEq] at hi
          subst hi
          refine ⟨⟨h, rfl⟩, fun k p hl => (hrefs k p hl).1, ?_⟩
          intro row1 hrow
          simp only [List.getElem?_cons_zero, Option.some.injEq] at hrow
          subst hrow
          intro j c p hj hl hlast
          obtain ⟨hl1, hk1⟩ := hfr p (hrefs c p hl).2
          rw [hl1, hk1, hbkind]
          exact hdec j c p hj hl hlast
        | succ i =>
          obtain ⟨hfrom, hlow, hdecs⟩ := hmod i model (by simpa using hi)
          refine ⟨hfrom, fun k p hl => Nat.le_trans hnext (hlow k p hl), ?_⟩
          intro row1 hrow
          exact hdecs row1 (by simpa using hrow)
      · intro i i1 model model1 k k1 p p1 hlt hi hi1 hl hl1
        cases i1 with
        | zero => exact absurd hlt (Nat.not_lt_zero _)
        | succ i1 =>
          have hlow := (hmod i1 model1 (by simpa using hi1)).2.1 k1 p1 hl1
          cases i with
          | zero =>
            simp only [List.getElem?_cons_zero, Option.some.injEq] at hi
            subst hi
            exact Nat.lt_of_lt_of_le (hrefs k p hl).2 hlow
          | succ i =>
            exact hsep i i1 model model1 k k1 p p1 (Nat.lt_of_succ_lt_succ hlt) (by simpa using hi)
              (by simpa using hi1) hl hl1

/-- When the query succeeds with a cursor that has a row, and some column name is no key of
the mapping of the record that the factory returns, `Get` fails with the error of `Scan` for a
wrong number of destinations. -/
theorem Get_unmapped_column {M σ : Type} (I : Model M) (r : Repository M σ) (id : Int)
    (h : Heap) (s s1 : σ) (cols : List String) (row : List Value) (rest : List (List Value))
    (fetchErr closeErr : Option Error) (c : String)
    (hq : r.db.QueryContext (Sql.selectById r.table) [Value.int id] s =
      (Except.ok (Rows.opened cols (row :: rest) fetchErr closeErr), s1))
    (hc : c ∈ cols) (hnot : c ∉ I.StructToMap (r.new h).1) :
    ∃ k, k < cols.length ∧
      Repository.Get I r id h s = ((I.zero, some (errScanArgs cols.length k)), (r.new h).2, s1) := by
  have hlt := filterMap_lookup_length_lt (I.StructToMap (r.new h).1) cols c hc hnot
  refine ⟨_, hlt, ?_⟩
  have hnext : (Rows.opened cols (row :: rest) fetchErr closeErr).Next =
      (true, { columns := cols, pending := rest, fetchErr := fetchErr, closeErr := closeErr,
               lastcols := some ((List.range cols.length).map (fun i => row.getD i Value.null)),
               lasterr := none, closed := false }) := rfl
  simp only [Repository.Get, sq.SelectById, List.map, Arg.driverValue, hq, hnext, set_eq,
    Rows.Columns, Bool.not_true, Bool.false_eq_true, if_false]
  rw [Scan_wrong_length _ _ _ _ rfl rfl rfl
    (by simp only [List.length_map, List.length_range]; exact Nat.ne_of_lt hlt)]
  simp

/-- What `GetAll` does when the query succeeds with a cursor whose column names are all keys
of the mapping of every blank record and whose values all convert to the types of their
fields, with a factory that allocates and a driver that reports no error: it returns without error as many records as there are rows (the nil slice for no
rows); the record at position `i` is a record of the factory decoded from the row at position
`i`, and the fields of an earlier record lie below those of a later one. -/
theorem GetAll_decode_spec {M σ : Type} (I : Model M) (r : Repository M σ) (h : Heap)
    (s s1 : σ) (cols : List String) (data : List (List Value))
    (hq : r.db.QueryContext (Sql.selectAll r.table) [] s =
      (Except.ok (Rows.opened cols data none none), s1))
    (hfresh : FreshFactory I r.new)
    (hcols : ∀ h0, ∀ c ∈ cols, c ∈ I.StructToMap (r.new h0).1)
    (hconv : ∀ h0, ∀ row ∈ data,
      Convertible (I.StructToMap (r.new h0).1) cols row (r.new h0).2) :
    ∃ (models : Slice M) (h1 : Heap),
      Repository.GetAll I r h s = ((models, none), h1, s1) ∧
      (Slice.elems models).length = data.length ∧
      (data = [] → models = none) ∧
      (∀ (i : Nat) model, (Slice.elems models)[i]? = some model →
        (∃ h0, model = (r.new h0).1) ∧
        ∀ row, data[i]? = some row → Decoded (I.StructToMap model) cols row h1) ∧
      (∀ (i i1 : Nat) model model1 k k1 p p1, i < i1 →
        (Slice.elems models)[i]? = some model → (Slice.elems models)[i1]? = some model1 →
        (I.StructToMap model).lookup k = some p →
        (I.StructToMap model1).lookup k1 = some p1 → p < p1) := by
  obtain ⟨res, newM, rs1, h1, hloop, helems, hnil, hlen, hcl, hle, _, _, _, hmod, hsep⟩ :=
    GetAll_loop_spec I r cols hfresh hcols data hconv (data.length + 1)
      (Rows.opened cols data none none) h none rfl rfl rfl rfl rfl rfl (Nat.lt_succ_self _)
  have helems' : Slice.elems res = newM := by rw [helems]; simp [Slice.elems]
  refine ⟨res, h1, ?_, by rw [helems', hlen], hnil, ?_, ?_⟩
  · have hcolumns : (Rows.opened cols data none none).Columns = Except.ok cols := rfl
    have hpending : (Rows.opened cols data none none).pending.length + 1 = data.length + 1 := rfl
    simp only [Repository.GetAll, sq.SelectAll, List.map, hq, hcolumns, hpending, hloop]
    simp [Rows.Close, Rows.Err, hcl, hle]
  · intro i model hi
    rw [helems'] at hi
    exact ⟨(hmod i model hi).1, (hmod i model hi).2.2⟩
  · intro i i1 model model1 k k1 p p1 hlt hi hi1
    rw [helems'] at hi hi1
    exact hsep i i1 model model1 k k1 p p1 hlt hi hi1

/-- The item factory allocates. -/
theorem itemNew_fresh : FreshFactory itemModel itemNew := by
  intro h
  refine ⟨Nat.le_add_right _ _, ?_, ?_⟩
  · intro k p hl
    simp only [itemModel, itemNew] at hl ⊢
    by_cases hid : k = "id"
    · subst hid
      rw [AList.lookup_insert] at hl
      have hp : h.next = p := Option.some.inj hl
      subst hp
      exact ⟨Nat.le_refl _, Nat.lt_add_of_pos_right (by decide)⟩
    · rw [AList.lookup_insert_ne hid] at hl
      by_cases hname : k = "name"
      · subst hname
        rw [AList.lookup_insert] at hl
        have hp : h.next + 1 = p := Option.some.inj hl
        subst hp
        exact ⟨Nat.le_add_right _ _, Nat.add_lt_add_left (by decide) _⟩
      · rw [AList.lookup_insert_ne hname, AList.lookup_empty] at hl
        exact Option.noConfusion hl
  · intro a ha
    have h1 : a ≠ h.next := Nat.ne_of_lt ha
    have h2 : a ≠ h.next + 1 := Nat.ne_of_lt (Nat.lt_succ_of_lt ha)
    constructor
    · simp [itemNew, Heap.load, h1, h2]
    · simp [itemNew, h1, h2]

/-- At an item repository whose query yields the rows `(1, "x")` and `(2, "y")` under the
columns `id` and `name`, `GetAll` returns two records without error. -/
theorem GetAll_decode_spec_items :
    ∃ (models : Slice (Option Addr)) (h1 : Heap),
      Repository.GetAll itemModel
        (stubRepo (Except.ok okResult)
          (Except.ok (Rows.opened ["id", "name"]
            [[Value.int 1, Value.text "x"], [Value.int 2, Value.text "y"]] none none)))
        emptyHeap () = ((models, none), h1, ()) ∧
      (Slice.elems models).length = 2 := by
  obtain ⟨models, h1, hg, hlen, _⟩ := GetAll_decode_spec itemModel
    (stubRepo (Except.ok okResult)
      (Except.ok (Rows.opened ["id", "name"]
        [[Value.int 1, Value.text "x"], [Value.int 2, Value.text "y"]] none none)))
    emptyHeap () () ["id", "name"]
    [[Value.int 1, Value.text "x"], [Value.int 2, Value.text "y"]] rfl
    itemNew_fresh itemNew_keys
    (by
      intro h0 row hrow
      simp only [List.mem_cons, List.mem_singleton, List.not_mem_nil, or_false] at hrow
      rcases hrow with h1 | h1
      · subst h1; exact itemRow_convertible h0 1 "x"
      · subst h1; exact itemRow_convertible h0 2 "y")
  exact ⟨models, h1, hg, hlen⟩

/-- C1: for every record and every order in which `range` enumerates its mapping there are a
column list and a value list of equal length, in which the value at each position is the
field reference the mapping holds for the column at that position, no column occurs twice and
the columns are exactly the keys of the mapping other than `"id"`, such that `Create` on that
record, with every repository, memory and executor state, is the builder call
`Insert(table).Columns(columns...).Values(values...)` followed by what `Create` does with its
outcome: it returns the error of the builder, or else runs the built statement on the
executor and returns the error of the executor, the error of `LastInsertId`, or the id. -/
theorem Create_columns_values_correspond {M σ : Type} (I : Model M) (rng : MapRange)
    (model : M) :
    ∃ (columns : List String) (values : List Addr),
      columns.length = values.length ∧
      columns.map (fun k => (I.StructToMap model).lookup k) = values.map some ∧
      columns.Nodup ∧
      (∀ k : String, k ∈ columns ↔ (k ∈ I.StructToMap model ∧ k ≠ "id")) ∧
      ∀ (r : Repository M σ) (h : Heap) (s : σ),
        Repository.Create I rng r model h s =
          (match sq.Insert r.table columns values with
           | Except.error err => ((0, some err), s)
           | Except.ok (query, args) =>
             match r.db.ExecContext query (args.map (Arg.driverValue h)) s with
             | (Except.error err, s) => ((0, some err), s)
             | (Except.ok result, s) =>
               match result.LastInsertId with
               | Except.error err => ((0, some err), s)
               | Except.ok id => ((id, none), s)) :=
  ⟨(Repository.Create.collect (rng.order (I.StructToMap model))).1,
    (Repository.Create.collect (rng.order (I.StructToMap model))).2,
    (Create_collect_spec rng (I.StructToMap model)).1,
    (Create_collect_spec rng (I.StructToMap model)).2.1,
    (Create_collect_spec rng (I.StructToMap model)).2.2.1,
    (Create_collect_spec rng (I.StructToMap model)).2.2.2,
    fun _ _ _ => rfl⟩

/-- C8: over the executor `memDB`, for a repository with a table name and a record `R` whose
keys other than `"id"` are keys of the blank record as well, where distinct such keys of the
blank record address distinct fields and each value of `R` is a value of the type of the same
field of the blank record: `Create` returns an id without error, `Get` with that id returns
the blank record of the factory without error, and afterwards every field of that record
other than `"id"` holds the value the same field of `R` held. -/
theorem Create_then_Get_round_trip {M : Type} (I : Model M) (rng : MapRange)
    (new : Heap → M × Heap) (table : String) (R : M) (h : Heap) (st : Store)
    (htable : table ≠ "")
    (hkeys : ∀ k, k ∈ I.StructToMap R → k ≠ "id" → k ∈ I.StructToMap (new h).1)
    (hinj : ∀ k k1 p, k ≠ "id" → k1 ≠ "id" → (I.StructToMap (new h).1).lookup k = some p →
      (I.StructToMap (new h).1).lookup k1 = some p → k = k1)
    (htyped : ∀ k p q, k ≠ "id" → (I.StructToMap R).lookup k = some p →
      (I.StructToMap (new h).1).lookup k = some q →
      convertAssign ((new h).2.kind q) (h.load p) = Except.ok (h.load p)) :
    ∃ n st1 h1,
      Repository.Create I rng (NewGenericRepository memDB table new) R h st = ((n, none), st1) ∧
      Repository.Get I (NewGenericRepository memDB table new) n h st1 =
        (((new h).1, none), h1, st1) ∧
      ∀ k p q, k ≠ "id" → (I.StructToMap R).lookup k = some p →
        (I.StructToMap (new h).1).lookup k = some q → h1.load q = h.load p := by
  obtain ⟨hlen, hcorr, hnd, hmem⟩ := Create_collect_spec rng (I.StructToMap R)
  generalize hcv : Repository.Create.collect (rng.order (I.StructToMap R)) = cv at hlen hcorr hnd hmem
  have hcreate : Repository.Create I rng (NewGenericRepository memDB table new) R h st =
      ((st.lastId + 1, none),
        { lastId := st.lastId + 1,
          rows := (st.lastId + 1, cv.1, cv.2.map h.load) :: st.rows }) := by
    simp [Repository.Create, NewGenericRepository, sq.Insert, htable, hcv, memDB,
      Function.comp_def, Arg.driverValue]
  have hq : (NewGenericRepository memDB table new).db.QueryContext
      (Sql.selectById (NewGenericRepository memDB table new).table) [Value.int (st.lastId + 1)]
      { lastId := st.lastId + 1, rows := (st.lastId + 1, cv.1, cv.2.map h.load) :: st.rows } =
      (Except.ok (Rows.opened cv.1 (cv.2.map h.load :: []) none none),
        { lastId := st.lastId + 1,
          rows := (st.lastId + 1, cv.1, cv.2.map h.load) :: st.rows }) := by
    simp [NewGenericRepository, memDB]
  have hcols : ∀ c ∈ cv.1, c ∈ I.StructToMap ((NewGenericRepository memDB table new).new h).1 :=
    fun c hc => hkeys c ((hmem c).mp hc).1 ((hmem c).mp hc).2
  -- the value stored for the column at position `i` is the value of that field of `R`
  have hrow : ∀ i k p, cv.1[i]? = some k → (I.StructToMap R).lookup k = some p →
      (cv.2.map h.load).getD i Value.null = h.load p := by
    intro i k p hik hp
    have := congrArg (fun l => l[i]?) hcorr
    simp only [List.getElem?_map, hik, Option.map_some'] at this
    rw [hp] at this
    cases hc2 : cv.2[i]? with
    | none => rw [hc2] at this; simp at this
    | some p' =>
      rw [hc2] at this
      simp only [Option.map_some', Option.some.injEq] at this
      simp [List.getD, hc2, this, Heap.load]
  have hconv : Convertible (I.StructToMap ((NewGenericRepository memDB table new).new h).1)
      cv.1 (cv.2.map h.load) ((NewGenericRepository memDB table new).new h).2 := by
    intro i c q hi hq'
    have hcin : c ∈ cv.1 := List.getElem?_mem hi
    obtain ⟨hcR, hcne⟩ := (hmem c).mp hcin
    obtain ⟨p, hp⟩ := Option.isSome_iff_exists.mp (AList.lookup_isSome.mpr hcR)
    rw [hrow i c p hi hp]
    exact ⟨_, htyped c p q hcne hp hq'⟩
  have hget := Get_scan_spec I (NewGenericRepository memDB table new)
    (st.lastId + 1) h _ _ cv.1 (cv.2.map h.load) [] none hq hcols hconv
  obtain ⟨_, hpos, _⟩ := scannedRow_spec _ cv.1 (cv.2.map h.load) _ hcols hconv
  refine ⟨_, _, _, hcreate, hget, ?_⟩
  intro k p q hk hp hq'
  have hkin : k ∈ cv.1 := (hmem k).mpr ⟨AList.lookup_isSome.mp (by rw [hp]; rfl), hk⟩
  obtain ⟨i, hi, hik⟩ := List.getElem_of_mem hkin
  have hik' : cv.1[i]? = some k := by rw [List.getElem?_eq_getElem hi, hik]
  have := hpos i k q hik' hq' (by
    intro j c' hj hc' hlook
    have hc'in : c' ∈ cv.1 := List.getElem?_mem hc'
    have hne : c' ≠ "id" := ((hmem c').mp hc'in).2
    have heq : k = c' := hinj k c' q hk hne hq' hlook
    subst heq
    have hjlt : j < cv.1.length := by
      by_contra hcon
      rw [List.getElem?_eq_none (by omega)] at hc'
      exact Option.noConfusion hc'
    have h1 : cv.1[i] = cv.1[j] := by
      rw [List.getElem?_eq_getElem hi] at hik'
      rw [List.getElem?_eq_getElem hjlt] at hc'
      exact (Option.some.inj hik').trans (Option.some.inj hc').symm
    have := (List.Nodup.getElem_inj_iff hnd).mp h1
    omega)
  rw [hrow i k p hik' hp] at this
  have h2 := htyped k p q hk hp hq'
  exact (Except.ok.inj (this.symm.trans h2))

/-- C8, at the item stored at address `0` with the name `"x"`, over an empty store: `Create`
and then `Get` return without error, and the name of the record returned, at address `3`, is
`"x"`. -/
theorem Create_then_Get_round_trip_witness :
    "item" ≠ "" ∧
    ∃ n st1 h1,
      Repository.Create itemModel rangeInOrder (NewGenericRepository memDB "item" itemNew)
        (some 0) itemHeap { lastId := 0, rows := [] } = ((n, none), st1) ∧
      Repository.Get itemModel (NewGenericRepository memDB "item" itemNew) n itemHeap st1 =
        (((itemNew itemHeap).1, none), h1, st1) ∧
      h1.load 3 = Value.text "x" := by
  obtain ⟨n, st1, h1, hc, hg, hf⟩ := Create_then_Get_round_trip itemModel rangeInOrder itemNew
    "item" (some 0) itemHeap { lastId := 0, rows := [] } (by decide)
    (by
      intro k hk hne
      have hname : k = "name" := by
        obtain ⟨p, hp⟩ := Option.isSome_iff_exists.mp (AList.lookup_isSome.mpr hk)
        exact itemModel_lookup_ne_id 0 k p hne hp
      subst hname; decide)
    (by
      intro k k1 p hk hk1 hp hp1
      rw [itemModel_lookup_ne_id _ k p hk hp, itemModel_lookup_ne_id _ k1 p hk1 hp1])
    (by
      intro k p q hk hp hq
      have hname : k = "name" := itemModel_lookup_ne_id 0 k p hk hp
      subst hname
      have hp1 : p = 1 := by
        have : (itemModel.StructToMap (some 0)).lookup "name" = some 1 := by decide
        rw [this] at hp; exact (Option.some.inj hp).symm
      have hq1 : q = 3 := by
        have : (itemModel.StructToMap (itemNew itemHeap).1).lookup "name" = some 3 := by decide
        rw [this] at hq; exact (Option.some.inj hq).symm
      subst hp1 hq1
      rfl)
  exact ⟨by decide, n, st1, h1, hc, hg, hf "name" 1 3 (by decide) (by decide) (by decide)⟩

/-- When the query succeeds with a cursor that has no rows and no iteration error, `Get`
returns the zero record together with a nil error. -/
theorem Get_no_rows {M σ : Type} (I : Model M) (r : Repository M σ) (id : Int) (h : Heap)
    (s s1 : σ) (cols : List String)
    (hq : r.db.QueryContext (Sql.selectById r.table) [Value.int id] s =
      (Except.ok (Rows.opened cols [] none none), s1)) :
    Repository.Get I r id h s = ((I.zero, none), h, s1) := by
  simp [Repository.Get, sq.SelectById, Arg.driverValue, hq, Rows.opened, Rows.Next, Rows.Close,
    Rows.Err]

/-- C2: at id `2`, with an executor whose query succeeds and yields no rows, `Get` returns the
zero record and a nil error instead of `sql.ErrNoRows`. -/
theorem Get_no_rows_returns_nil_error :
    ((stubRepo (Except.ok okResult)
        (Except.ok (Rows.opened ["id", "name"] [] none none))).Get itemModel 2 emptyHeap ()).1 =
      (none, none) := by
  decide

/-- Whatever failure the executor reports for the UPDATE, `Update` panics. -/
theorem Update_exec_failure {M σ : Type} (I : Model M) (r : Repository M σ) (model : M)
    (id : Int) (h : Heap) (s s1 : σ) (e : Error) (query : Sql) (args : List Arg)
    (hb : sq.Update r.table ((I.StructToMap model).erase "id") id = Except.ok (query, args))
    (hx : r.db.ExecContext query (args.map (Arg.driverValue h)) s = (Except.error e, s1)) :
    Repository.Update I r model id h s =
      (Outcome.panic "runtime error: invalid memory address or nil pointer dereference", s1) := by
  simp [Repository.Update, hb, hx]

/-- Whatever the executor answers, `Update` never returns a non-nil error once the statement
is built. -/
theorem Update_never_returns_exec_error {M σ : Type} (I : Model M) (r : Repository M σ)
    (model : M) (id : Int) (h : Heap) (s : σ) (e : Error) (query : Sql) (args : List Arg)
    (hb : sq.Update r.table ((I.StructToMap model).erase "id") id = Except.ok (query, args)) :
    (Repository.Update I r model id h s).1 ≠ Outcome.ret (some e) := by
  simp only [Repository.Update, hb]
  rcases hx : r.db.ExecContext query (args.map (Arg.driverValue h)) s with ⟨res, s1⟩
  cases res <;> simp

/-- C3: with an executor that reports `sql.ErrNoRows` for the UPDATE, `Update` of an item at
id `1` panics instead of returning that error. -/
theorem Update_exec_error_panics :
    ((stubRepo (Except.error Error.ErrNoRows) (Except.error Error.ErrNoRows)).Update
        itemModel (some 0) 1 emptyHeap ()).1 =
      Outcome.panic "runtime error: invalid memory address or nil pointer dereference" := by
  decide

/-- C5: for a row with the columns `id`, `name` and `extra`, of which `extra` is no key of the
mapping, `Get` fails: `set` hands two destinations to `Scan`, which expects three. -/
theorem Get_unmapped_column_fails :
    ((stubRepo (Except.ok okResult)
        (Except.ok (Rows.opened ["id", "name", "extra"]
          [[Value.int 1, Value.text "x", Value.null]] none none))).Get
        itemModel 1 emptyHeap ()).1 =
      (none, some (errScanArgs 3 2)) := by
  decide

/-- C7: whenever the executor fails with `e` on the statement that the operation built,
`Create` returns `(0, e)`, `Get` returns the zero record and `e`, `GetAll` returns the nil
slice and `e`, and `Delete` returns `e`. -/
theorem executor_failure_is_returned {M σ : Type} (I : Model M) (rng : MapRange)
    (r : Repository M σ) (model : M) (id : Int) (h : Heap) (s s1 : σ) (e : Error) :
    (∀ query args,
      sq.Insert r.table (Repository.Create.collect (rng.order (I.StructToMap model))).1
        (Repository.Create.collect (rng.order (I.StructToMap model))).2 =
          Except.ok (query, args) →
      r.db.ExecContext query (args.map (Arg.driverValue h)) s = (Except.error e, s1) →
      Repository.Create I rng r model h s = ((0, some e), s1)) ∧
    (∀ query args, sq.SelectById r.table id = Except.ok (query, args) →
      r.db.QueryContext query (args.map (Arg.driverValue h)) s = (Except.error e, s1) →
      Repository.Get I r id h s = ((I.zero, some e), h, s1)) ∧
    (∀ query args, sq.SelectAll r.table = Except.ok (query, args) →
      r.db.QueryContext query (args.map (Arg.driverValue h)) s = (Except.error e, s1) →
      Repository.GetAll I r h s = ((none, some e), h, s1)) ∧
    (∀ query args, sq.Delete r.table id = Except.ok (query, args) →
      r.db.ExecContext query (args.map (Arg.driverValue h)) s = (Except.error e, s1) →
      Repository.Delete r id h s = (some e, s1)) := by
  refine ⟨?_, ?_, ?_, ?_⟩
  · intro query args hb hx
    simp only [Repository.Create, hb, hx]
  · intro query args hb hx
    simp only [Repository.Get, hb, hx]
  · intro query args hb hx
    simp only [Repository.GetAll, hb, hx]
  · intro query args hb hx
    simp only [Repository.Delete, hb, hx]

/-- C7, at an item repository whose executor fails every statement with `sql.ErrNoRows`. -/
theorem executor_failure_is_returned_witness :
    Repository.Create itemModel rangeInOrder
        (stubRepo (Except.error Error.ErrNoRows) (Except.error Error.ErrNoRows))
        (some 0) emptyHeap () = ((0, some Error.ErrNoRows), ()) ∧
    (Repository.Get itemModel
        (stubRepo (Except.error Error.ErrNoRows) (Except.error Error.ErrNoRows))
        2 emptyHeap ()).1 = (none, some Error.ErrNoRows) ∧
    (Repository.GetAll itemModel
        (stubRepo (Except.error Error.ErrNoRows) (Except.error Error.ErrNoRows))
        emptyHeap ()).1 = (none, some Error.ErrNoRows) ∧
    Repository.Delete
        (stubRepo (Except.error Error.ErrNoRows) (Except.error Error.ErrNoRows))
        2 emptyHeap () = (some Error.ErrNoRows, ()) := by
  have h := executor_failure_is_returned itemModel rangeInOrder
    (stubRepo (Except.error Error.ErrNoRows) (Except.error Error.ErrNoRows))
    (some 0) 2 emptyHeap () () Error.ErrNoRows
  exact ⟨h.1 _ _ rfl rfl, congrArg Prod.fst (h.2.1 _ _ rfl rfl),
    congrArg Prod.fst (h.2.2.1 _ _ rfl rfl), h.2.2.2 _ _ rfl rfl⟩

/-- C6: for a successful query that yields one row with the columns `id`, `name` and `extra`,
of which `extra` is no key of the mapping, `GetAll` returns the nil slice and the error of
`Scan` for a wrong number of destinations. -/
theorem GetAll_unmapped_column_fails :
    ((stubRepo (Except.ok okResult)
        (Except.ok (Rows.opened ["id", "name", "extra"]
          [[Value.int 1, Value.text "x", Value.null]] none none))).GetAll
        itemModel emptyHeap ()).1 =
      (none, some (errScanArgs 3 2)) := by
  decide

/-- The loop of `StructToMap` returns a mapping when every field other than the marker is
exported. -/
theorem StructToMap_loop_returns (base : Addr) (rest : List StructField) (i : Nat) (m : GoMap)
    (hexp : ∀ f ∈ rest, strings.ToLower f.Name ≠ "reflection" → f.exported = true) :
    ∃ m1, Reflection.StructToMap.loop base rest i m = Outcome.ret m1 := by
  induction rest generalizing i m with
  | nil => exact ⟨m, rfl⟩
  | cons f fs ih =>
    have hfs : ∀ g ∈ fs, strings.ToLower g.Name ≠ "reflection" → g.exported = true :=
      fun g hg => hexp g (List.mem_cons_of_mem _ hg)
    unfold Reflection.StructToMap.loop
    by_cases hmark : strings.ToLower f.Name = "reflection"
    · simp only [hmark, if_true]
      exact ih (i + 1) m hfs
    · have hex : f.exported = true := hexp f (List.mem_cons_self _ _) hmark
      simp only [hmark, if_false, hex, Bool.not_true, Bool.false_eq_true]
      exact ih (i + 1) _ hfs

/-- The keys of the mapping that the loop of `StructToMap` returns are the keys it started
with and the lower-cased names of the fields other than the marker. -/
theorem StructToMap_loop_mem (base : Addr) (rest : List StructField) (i : Nat) (m m1 : GoMap)
    (hret : Reflection.StructToMap.loop base rest i m = Outcome.ret m1) (k : String) :
    k ∈ m1 ↔ k ∈ m ∨ k ∈ Reflection.keysOf rest := by
  induction rest generalizing i m with
  | nil =>
    simp only [Reflection.StructToMap.loop, Outcome.ret.injEq] at hret
    subst hret
    simp [Reflection.keysOf, Reflection.nonMarker]
  | cons f fs ih =>
    unfold Reflection.StructToMap.loop at hret
    by_cases hmark : strings.ToLower f.Name = "reflection"
    · simp only [hmark, if_true] at hret
      rw [ih (i + 1) m hret]
      simp [Reflection.keysOf, Reflection.nonMarker, hmark]
    · by_cases hex : f.exported = true
      · simp only [hmark, if_false, hex, Bool.not_true, Bool.false_eq_true] at hret
        rw [ih (i + 1) _ hret, AList.mem_insert]
        simp only [Reflection.keysOf, Reflection.nonMarker, List.filter_cons, hmark, ne_eq,
          not_false_eq_true, decide_True, if_true, List.map_cons, List.mem_cons]
        tauto
      · simp [hmark, hex] at hret

/-- The loop of `StructToMap`, when the fields other than the marker are exported and their
lower-cased names are pairwise distinct and are no keys yet: it returns a mapping with one
more key per such field, in which the lower-cased name of the field at position `j` of `rest`
holds the address of field `i + j`, and the other keys keep their references. -/
theorem StructToMap_loop_spec (base : Addr) (rest : List StructField) (i : Nat) (m : GoMap)
    (hexp : ∀ f ∈ rest, strings.ToLower f.Name ≠ "reflection" → f.exported = true)
    (hnd : (Reflection.keysOf rest).Nodup)
    (hnew : ∀ k ∈ Reflection.keysOf rest, k ∉ m) :
    ∃ m1, Reflection.StructToMap.loop base rest i m = Outcome.ret m1 ∧
      m1.keys.length = m.keys.length + (Reflection.nonMarker rest).length ∧
      (∀ j f, rest[j]? = some f → strings.ToLower f.Name ≠ "reflection" →
        m1.lookup (strings.ToLower f.Name) = some (base + (i + j))) ∧
      (∀ k, k ∉ Reflection.keysOf rest → m1.lookup k = m.lookup k) := by
  induction rest generalizing i m with
  | nil =>
    refine ⟨m, rfl, by simp [Reflection.nonMarker], ?_, fun _ _ => rfl⟩
    intro j f hj; simp at hj
  | cons f fs ih =>
    have hfs : ∀ g ∈ fs, strings.ToLower g.Name ≠ "reflection" → g.exported = true :=
      fun g hg => hexp g (List.mem_cons_of_mem _ hg)
    unfold Reflection.StructToMap.loop
    by_cases hmark : strings.ToLower f.Name = "reflection"
    · have hk : Reflection.keysOf (f :: fs) = Reflection.keysOf fs := by
        simp [Reflection.keysOf, Reflection.nonMarker, hmark]
      have hn : Reflection.nonMarker (f :: fs) = Reflection.nonMarker fs := by
        simp [Reflection.nonMarker, hmark]
      rw [hk] at hnd hnew
      obtain ⟨m1, hret, hlen, hpos, hother⟩ := ih (i + 1) m hfs hnd hnew
      simp only [hmark, if_true]
      refine ⟨m1, hret, by rw [hlen, hn], ?_, by rw [hk]; exact hother⟩
      intro j g hj hg
      cases j with
      | zero =>
        simp only [List.getElem?_cons_zero, Option.some.injEq] at hj
        subst hj; exact absurd hmark hg
      | succ j =>
        rw [hpos j g (by simpa using hj) hg, Nat.add_right_comm i 1 j, Nat.add_assoc i j 1]
    · have hex : f.exported = true := hexp f (List.mem_cons_self _ _) hmark
      have hk : Reflection.keysOf (f :: fs) = strings.ToLower f.Name :: Reflection.keysOf fs := by
        simp [Reflection.keysOf, Reflection.nonMarker, hmark]
      have hn : Reflection.nonMarker (f :: fs) = f :: Reflection.nonMarker fs := by
        simp [Reflection.nonMarker, hmark]
      rw [hk] at hnd hnew
      have hfm : strings.ToLower f.Name ∉ m := hnew _ (List.mem_cons_self _ _)
      have hffs : strings.ToLower f.Name ∉ Reflection.keysOf fs := (List.nodup_cons.mp hnd).1
      have hnew1 : ∀ k ∈ Reflection.keysOf fs,
          k ∉ AList.insert (strings.ToLower f.Name) (base + i) m := by
        intro k hkmem hkin
        rcases (AList.mem_insert m).mp hkin with h1 | h1
        · exact hffs (h1 ▸ hkmem)
        · exact hnew k (List.mem_cons_of_mem _ hkmem) h1
      obtain ⟨m1, hret, hlen, hpos, hother⟩ :=
        ih (i + 1) (AList.insert (strings.ToLower f.Name) (base + i) m) hfs
          (List.nodup_cons.mp hnd).2 hnew1
      simp only [hmark, if_false, hex, Bool.not_true, Bool.false_eq_true]
      refine ⟨m1, hret, ?_, ?_, ?_⟩
      · rw [hlen, hn, AList.keys_insert, List.length_cons, List.length_cons]
        have : (m.keys.erase (strings.ToLower f.Name)) = m.keys :=
          List.erase_of_not_mem (by rwa [← AList.mem_keys])
        rw [this]; omega
      · intro j g hj hg
        cases j with
        | zero =>
          simp only [List.getElem?_cons_zero, Option.some.injEq] at hj
          subst hj
          rw [hother _ hffs, AList.lookup_insert]
          rfl
        | succ j =>
          rw [hpos j g (by simpa using hj) hg, Nat.add_right_comm i 1 j, Nat.add_assoc i j 1]
      · intro k hknot
        rw [hk, List.mem_cons, not_or] at hknot
        rw [hother k hknot.2, AList.lookup_insert_ne hknot.1]

/-- C9, as stated, fails: for a struct with the exported fields `Name` and `NAME`,
`StructToMap` returns a mapping with the single key `"name"`, which refers to the second
field, although the struct has two fields other than the marker. -/
theorem StructToMap_colliding_names :
    Reflection.StructToMap collidingStruct = Outcome.ret (AList.singleton "name" 1) ∧
    (AList.singleton "name" 1 : GoMap).keys.length = 1 ∧
    (Reflection.nonMarker collidingStruct.fields).length = 2 ∧
    (AList.singleton "name" 1 : GoMap).lookup (strings.ToLower "Name") ≠
      some (collidingStruct.base + 0) := by
  refine ⟨rfl, by decide, by decide, by decide⟩

/-- C9, amended: for every pointer to a struct whose fields other than the marker are exported
and have pairwise distinct lower-cased names, `StructToMap` returns a mapping with as many
entries as there are such fields, whose keys are exactly their lower-cased names; the
lower-cased name of field `i` holds the address of field `i`, and a write through that address
changes field `i` of the struct and no other field. -/
theorem StructToMap_one_entry_per_field (d : StructPtr)
    (hexp : ∀ f ∈ d.fields, strings.ToLower f.Name ≠ "reflection" → f.exported = true)
    (hnd : (Reflection.keysOf d.fields).Nodup) :
    ∃ m, Reflection.StructToMap d = Outcome.ret m ∧
      m.keys.length = (Reflection.nonMarker d.fields).length ∧
      (∀ k, k ∈ m ↔ k ∈ Reflection.keysOf d.fields) ∧
      (∀ i f, d.fields[i]? = some f → strings.ToLower f.Name ≠ "reflection" →
        m.lookup (strings.ToLower f.Name) = some (d.base + i) ∧
        ∀ (h : Heap) (v : Value) (j : Nat),
          (h.store (d.base + i) v).load (d.base + j) =
            if j = i then v else h.load (d.base + j)) := by
  obtain ⟨m, hret, hlen, hpos, _⟩ :=
    StructToMap_loop_spec d.base d.fields 0 ∅ hexp hnd (fun k _ => AList.not_mem_empty k)
  refine ⟨m, hret, by simpa using hlen, ?_, ?_⟩
  · intro k
    rw [StructToMap_loop_mem d.base d.fields 0 ∅ m hret k]
    simp [AList.not_mem_empty]
  · intro i f hi hf
    refine ⟨by simpa using hpos i f hi hf, ?_⟩
    intro h v j
    by_cases hji : j = i
    · subst hji; simp [Heap.load, Heap.store]
    · have : d.base + j ≠ d.base + i := fun hh => hji (Nat.add_left_cancel hh)
      simp [Heap.load, Heap.store, Function.update, this, hji]

/-- C9, amended, at a struct with the fields `ID`, `Name` and the embedded `Reflection`. -/
theorem StructToMap_one_entry_per_field_witness :
    (∀ f ∈ itemStruct.fields, strings.ToLower f.Name ≠ "reflection" → f.exported = true) ∧
    (Reflection.keysOf itemStruct.fields).Nodup ∧
    ∃ m, Reflection.StructToMap itemStruct = Outcome.ret m ∧
      m.keys.length = (Reflection.nonMarker itemStruct.fields).length ∧
      (∀ k, k ∈ m ↔ k ∈ Reflection.keysOf itemStruct.fields) ∧
      (∀ i f, itemStruct.fields[i]? = some f → strings.ToLower f.Name ≠ "reflection" →
        m.lookup (strings.ToLower f.Name) = some (itemStruct.base + i) ∧
        ∀ (h : Heap) (v : Value) (j : Nat),
          (h.store (itemStruct.base + i) v).load (itemStruct.base + j) =
            if j = i then v else h.load (itemStruct.base + j)) :=
  ⟨by decide, by decide, StructToMap_one_entry_per_field itemStruct (by decide) (by decide)⟩

/-- C10: whenever `StructToMap` returns a mapping for a struct, the mapping has the key `"id"`
if the struct has a field named `ID`, and it never has the key `"reflection"`; and
`StructToMap` does return a mapping when every field other than the marker is exported. -/
theorem StructToMap_has_id_and_no_marker (d : StructPtr) :
    (∀ m, Reflection.StructToMap d = Outcome.ret m →
      ((∃ f ∈ d.fields, f.Name = "ID") → "id" ∈ m) ∧ "reflection" ∉ m) ∧
    ((∀ f ∈ d.fields, strings.ToLower f.Name ≠ "reflection" → f.exported = true) →
      ∃ m, Reflection.StructToMap d = Outcome.ret m) := by
  refine ⟨?_, fun hexp => StructToMap_loop_returns d.base d.fields 0 ∅ hexp⟩
  intro m hret
  have hmem := StructToMap_loop_mem d.base d.fields 0 ∅ m hret
  constructor
  · rintro ⟨f, hf, hname⟩
    rw [hmem]
    right
    simp only [Reflection.keysOf, Reflection.nonMarker, List.mem_map, List.mem_filter,
      decide_eq_true_eq]
    refine ⟨f, ⟨hf, ?_⟩, ?_⟩
    · rw [hname]; decide
    · rw [hname]; decide
  · rw [hmem]
    simp only [AList.not_mem_empty, false_or, Reflection.keysOf, Reflection.nonMarker,
      List.mem_map, List.mem_filter, decide_eq_true_eq, not_exists, not_and]
    intro f hf hlow
    exact hf.2 hlow

/-- C10, at a struct with the fields `ID`, `Name` and the embedded `Reflection`: the mapping
returned has the key `"id"` and not the key `"reflection"`. -/
theorem StructToMap_has_id_and_no_marker_witness :
    (∃ f ∈ itemStruct.fields, f.Name = "ID") ∧
    (∀ f ∈ itemStruct.fields, strings.ToLower f.Name ≠ "reflection" → f.exported = true) ∧
    Reflection.StructToMap itemStruct =
      Outcome.ret (AList.insert "name" 1 (AList.singleton "id" 0)) ∧
    "id" ∈ (AList.insert "name" 1 (AList.singleton "id" 0) : GoMap) ∧
    "reflection" ∉ (AList.insert "name" 1 (AList.singleton "id" 0) : GoMap) :=
  ⟨by decide, by decide, rfl,
    ((StructToMap_has_id_and_no_marker itemStruct).1 _ rfl).1 (by decide),
    ((StructToMap_has_id_and_no_marker itemStruct).1 _ rfl).2⟩

/-- The reply of `http.Error` on a fresh recorder: the given code, and the message followed by
a newline as body. -/
theorem http_Error_fresh (msg : String) (code : Nat) :
    (http.Error http.NewRecorder msg code).Code = code ∧
    (http.Error http.NewRecorder msg code).Body = msg ++ "\n" := by
  constructor
  · rfl
  · simp [http.Error, http.NewRecorder, http.ResponseWriter.Write,
      http.ResponseWriter.WriteHeader, http.ResponseWriter.HeaderSet,
      http.ResponseWriter.HeaderDel]

/-- A string that is no decimal integer is refused by `Atoi`. -/
theorem Atoi_of_not_decimal (s : String) (hs : strconv.isDecimal s = false) :
    ∃ e, strconv.Atoi s = Except.error e := by
  have hcond : ((strconv.splitSign s.data).2.isEmpty ||
      !(strconv.splitSign s.data).2.all Char.isDigit) = true := by
    simp only [strconv.isDecimal] at hs
    cases h1 : (strconv.splitSign s.data).2.isEmpty <;>
      cases h2 : (strconv.splitSign s.data).2.all Char.isDigit <;> simp_all
  refine ⟨Error.New ("strconv.Atoi: parsing " ++ s.quote ++ ": invalid syntax"), ?_⟩
  simp only [strconv.Atoi, hcond, if_true]

/-- C12: for a request with a well-formed id (and, for Update, a body that decodes), when the
repository operation fails with an error that is or wraps `sql.ErrNoRows`, the Get, Delete
and Update handlers each answer with status 404 and the body `"resource not found\n"`. -/
theorem NotFound_is_answered_404 {In Out σ : Type} (JI : JSON In) (JO : JSON Out)
    (r : http.Request) (s s1 : σ) (id : Int) (e : Error)
    (hid : strconv.Atoi r.PathValueId = Except.ok id) (he : e.IsErrNoRows = true) :
    (∀ (f : Int → σ → (Out × Option Error) × σ) (out : Out), f id s = ((out, some e), s1) →
      (RegisterGet JO f http.NewRecorder r s).1.Code = 404 ∧
      (RegisterGet JO f http.NewRecorder r s).1.Body = "resource not found\n") ∧
    (∀ (f : Int → σ → Option Error × σ), f id s = (some e, s1) →
      (RegisterDelete f http.NewRecorder r s).1.Code = 404 ∧
      (RegisterDelete f http.NewRecorder r s).1.Body = "resource not found\n") ∧
    (∀ (f : In → Int → σ → Option Error × σ) (in_ : In), JI.Decode r.Body = Except.ok in_ →
      f in_ id s = (some e, s1) →
      (RegisterUpdate JI f http.NewRecorder r s).1.Code = 404 ∧
      (RegisterUpdate JI f http.NewRecorder r s).1.Body = "resource not found\n") := by
  have h404 := http_Error_fresh "resource not found" http.StatusNotFound
  refine ⟨?_, ?_, ?_⟩
  · intro f out hf
    simp only [RegisterGet, hid, hf, he, if_true]
    exact h404
  · intro f hf
    simp only [RegisterDelete, hid, hf, he, if_true]
    exact h404
  · intro f in_ hdec hf
    simp only [RegisterUpdate, hdec, hid, hf, he, if_true]
    exact h404

/-- C12, at the request for id `10` with the body `"x"`, with operations that fail with
`sql.ErrNoRows`. -/
theorem NotFound_is_answered_404_witness :
    strconv.Atoi "10" = Except.ok 10 ∧ Error.ErrNoRows.IsErrNoRows = true ∧
    (RegisterGet nameJSON (countGet "" (some Error.ErrNoRows)) http.NewRecorder
        { PathValueId := "10", Body := "x" } 0).1.Code = 404 ∧
    (RegisterDelete (countDelete (some Error.ErrNoRows)) http.NewRecorder
        { PathValueId := "10", Body := "x" } 0).1.Body = "resource not found\n" ∧
    (RegisterUpdate nameJSON (countUpdate (some Error.ErrNoRows)) http.NewRecorder
        { PathValueId := "10", Body := "x" } 0).1.Code = 404 :=
  ⟨rfl, rfl,
    ((NotFound_is_answered_404 nameJSON nameJSON { PathValueId := "10", Body := "x" } 0 1 10
      Error.ErrNoRows rfl rfl).1 _ "" rfl).1,
    ((NotFound_is_answered_404 nameJSON nameJSON { PathValueId := "10", Body := "x" } 0 1 10
      Error.ErrNoRows rfl rfl).2.1 _ rfl).2,
    ((NotFound_is_answered_404 nameJSON nameJSON { PathValueId := "10", Body := "x" } 0 1 10
      Error.ErrNoRows rfl rfl).2.2 _ "x" rfl rfl).1⟩

/-- C13: when the operation fails with `sql.ErrNoRows`, the GetAll handler answers with status
400, not 404; the body is `"resource not found\n"`. -/
theorem GetAll_NotFound_is_answered_400 :
    (RegisterGetAll namesJSON (countGetAll none (some Error.ErrNoRows)) http.NewRecorder
        { PathValueId := "", Body := "" } 0).1.Code = 400 ∧
    (RegisterGetAll namesJSON (countGetAll none (some Error.ErrNoRows)) http.NewRecorder
        { PathValueId := "", Body := "" } 0).1.Body = "resource not found\n" := by
  decide

/-- C14, as stated, fails: the Update handler answers a request whose body is empty and whose
id is `asd` with the body `"invalid json\n"`, not `"invalid param\n"`. -/
theorem Update_bad_body_and_bad_id :
    strconv.isDecimal "asd" = false ∧
    (RegisterUpdate nameJSON (countUpdate none) http.NewRecorder
        { PathValueId := "asd", Body := "" } 0).1.Code = 400 ∧
    (RegisterUpdate nameJSON (countUpdate none) http.NewRecorder
        { PathValueId := "asd", Body := "" } 0).1.Body = "invalid json\n" := by
  decide

/-- C14, amended: for a request whose `{id}` path segment is no decimal integer, the Get and
Delete handlers, and the Update handler when the body decodes, answer with status 400 and the
body `"invalid param\n"`, and leave the state of the repository operation as it was, whatever
the operation is. -/
theorem invalid_id_is_answered_400 {In Out σ : Type} (JI : JSON In) (JO : JSON Out)
    (r : http.Request) (s : σ) (hid : strconv.isDecimal r.PathValueId = false) :
    (∀ (f : Int → σ → (Out × Option Error) × σ),
      (RegisterGet JO f http.NewRecorder r s).1.Code = 400 ∧
      (RegisterGet JO f http.NewRecorder r s).1.Body = "invalid param\n" ∧
      (RegisterGet JO f http.NewRecorder r s).2 = s) ∧
    (∀ (f : Int → σ → Option Error × σ),
      (RegisterDelete f http.NewRecorder r s).1.Code = 400 ∧
      (RegisterDelete f http.NewRecorder r s).1.Body = "invalid param\n" ∧
      (RegisterDelete f http.NewRecorder r s).2 = s) ∧
    (∀ (f : In → Int → σ → Option Error × σ) (in_ : In), JI.Decode r.Body = Except.ok in_ →
      (RegisterUpdate JI f http.NewRecorder r s).1.Code = 400 ∧
      (RegisterUpdate JI f http.NewRecorder r s).1.Body = "invalid param\n" ∧
      (RegisterUpdate JI f http.NewRecorder r s).2 = s) := by
  obtain ⟨e, he⟩ := Atoi_of_not_decimal r.PathValueId hid
  have h400 := http_Error_fresh "invalid param" http.StatusBadRequest
  refine ⟨?_, ?_, ?_⟩
  · intro f
    simp only [RegisterGet, he]
    exact ⟨h400.1, h400.2, trivial⟩
  · intro f
    simp only [RegisterDelete, he]
    exact ⟨h400.1, h400.2, trivial⟩
  · intro f in_ hdec
    simp only [RegisterUpdate, hdec, he]
    exact ⟨h400.1, h400.2, trivial⟩

/-- C14, amended, at the request for id `asd` with the body `"x"`, with operations that count
their calls: the count stays `0`. -/
theorem invalid_id_is_answered_400_witness :
    strconv.isDecimal "asd" = false ∧
    (RegisterGet nameJSON (countGet "" none) http.NewRecorder
        { PathValueId := "asd", Body := "x" } 0).1.Body = "invalid param\n" ∧
    (RegisterDelete (countDelete none) http.NewRecorder
        { PathValueId := "asd", Body := "x" } 0).2 = 0 ∧
    (RegisterUpdate nameJSON (countUpdate none) http.NewRecorder
        { PathValueId := "asd", Body := "x" } 0).2 = 0 :=
  ⟨by decide,
    ((invalid_id_is_answered_400 nameJSON nameJSON { PathValueId := "asd", Body := "x" } 0
      (by decide)).1 _).2.1,
    ((invalid_id_is_answered_400 nameJSON nameJSON { PathValueId := "asd", Body := "x" } 0
      (by decide)).2.1 _).2.2,
    ((invalid_id_is_answered_400 nameJSON nameJSON { PathValueId := "asd", Body := "x" } 0
      (by decide)).2.2 _ "x" rfl).2.2⟩

/-- C15: for a request whose body is empty or does not decode, the Create and Update handlers
answer with status 400 and the body `"invalid json\n"`, and leave the state of the repository
operation as it was, whatever the operation is. -/
theorem invalid_body_is_answered_400 {In σ : Type} (JI : JSON In) (r : http.Request) (s : σ)
    (hbody : r.Body = "" ∨ ∃ e, JI.Decode r.Body = Except.error e) :
    (∀ (f : In → σ → (Int × Option Error) × σ),
      (RegisterCreate JI f http.NewRecorder r s).1.Code = 400 ∧
      (RegisterCreate JI f http.NewRecorder r s).1.Body = "invalid json\n" ∧
      (RegisterCreate JI f http.NewRecorder r s).2 = s) ∧
    (∀ (f : In → Int → σ → Option Error × σ),
      (RegisterUpdate JI f http.NewRecorder r s).1.Code = 400 ∧
      (RegisterUpdate JI f http.NewRecorder r s).1.Body = "invalid json\n" ∧
      (RegisterUpdate JI f http.NewRecorder r s).2 = s) := by
  have hdec : ∃ e, JI.Decode r.Body = Except.error e := by
    rcases hbody with h1 | h1
    · exact ⟨_, by rw [h1]; exact JI.decode_empty⟩
    · exact h1
  obtain ⟨e, he⟩ := hdec
  have h400 := http_Error_fresh "invalid json" http.StatusBadRequest
  refine ⟨?_, ?_⟩
  · intro f
    simp only [RegisterCreate, he]
    exact ⟨h400.1, h400.2, trivial⟩
  · intro f
    simp only [RegisterUpdate, he]
    exact ⟨h400.1, h400.2, trivial⟩

/-- C15, at the request with an empty body for id `1`, with operations that count their
calls: the count stays `0`. -/
theorem invalid_body_is_answered_400_witness :
    (RegisterCreate nameJSON (countCreate 1 none) http.NewRecorder
        { PathValueId := "", Body := "" } 0).1.Body = "invalid json\n" ∧
    (RegisterCreate nameJSON (countCreate 1 none) http.NewRecorder
        { PathValueId := "", Body := "" } 0).2 = 0 ∧
    (RegisterUpdate nameJSON (countUpdate none) http.NewRecorder
        { PathValueId := "1", Body := "" } 0).1.Code = 400 ∧
    (RegisterUpdate nameJSON (countUpdate none) http.NewRecorder
        { PathValueId := "1", Body := "" } 0).2 = 0 :=
  ⟨((invalid_body_is_answered_400 nameJSON { PathValueId := "", Body := "" } 0
      (Or.inl rfl)).1 _).2.1,
    ((invalid_body_is_answered_400 nameJSON { PathValueId := "", Body := "" } 0
      (Or.inl rfl)).1 _).2.2,
    ((invalid_body_is_answered_400 nameJSON { PathValueId := "1", Body := "" } 0
      (Or.inl rfl)).2 _).1,
    ((invalid_body_is_answered_400 nameJSON { PathValueId := "1", Body := "" } 0
      (Or.inl rfl)).2 _).2.2⟩

/-- For a repository error that neither is nor wraps `sql.ErrNoRows`, the Create, Get, GetAll
and Delete handlers answer with status 400 and the message of the error followed by a newline
(the Create handler does so for every error). -/
theorem other_error_is_answered_400 {In Out σ : Type} (JI : JSON In) (JO : JSON Out)
    (JA : JSON (Slice Out)) (r : http.Request) (s s1 : σ) (e : Error)
    (he : e.IsErrNoRows = false) :
    (∀ (f : In → σ → (Int × Option Error) × σ) (in_ : In) (n : Int),
      JI.Decode r.Body = Except.ok in_ → f in_ s = ((n, some e), s1) →
      (RegisterCreate JI f http.NewRecorder r s).1.Code = 400 ∧
      (RegisterCreate JI f http.NewRecorder r s).1.Body = e.msg ++ "\n") ∧
    (∀ (f : Int → σ → (Out × Option Error) × σ) (id : Int) (out : Out),
      strconv.Atoi r.PathValueId = Except.ok id → f id s = ((out, some e), s1) →
      (RegisterGet JO f http.NewRecorder r s).1.Code = 400 ∧
      (RegisterGet JO f http.NewRecorder r s).1.Body = e.msg ++ "\n") ∧
    (∀ (f : σ → (Slice Out × Option Error) × σ) (out : Slice Out), f s = ((out, some e), s1) →
      (RegisterGetAll JA f http.NewRecorder r s).1.Code = 400 ∧
      (RegisterGetAll JA f http.NewRecorder r s).1.Body = e.msg ++ "\n") ∧
    (∀ (f : Int → σ → Option Error × σ) (id : Int),
      strconv.Atoi r.PathValueId = Except.ok id → f id s = (some e, s1) →
      (RegisterDelete f http.NewRecorder r s).1.Code = 400 ∧
      (RegisterDelete f http.NewRecorder r s).1.Body = e.msg ++ "\n") := by
  have h400 := http_Error_fresh e.msg http.StatusBadRequest
  refine ⟨?_, ?_, ?_, ?_⟩
  · intro f in_ n hdec hf
    simp only [RegisterCreate, hdec, hf]
    exact h400
  · intro f id out hid hf
    simp only [RegisterGet, hid, hf, he, Bool.false_eq_true, if_false]
    exact h400
  · intro f out hf
    simp only [RegisterGetAll, hf, he, Bool.false_eq_true, if_false]
    exact h400
  · intro f id hid hf
    simp only [RegisterDelete, hid, hf, he, Bool.false_eq_true, if_false]
    exact h400

/-- C16: when the operation fails with the error `boom`, which is not `sql.ErrNoRows`, the
Update handler answers with status 400 and the body `"resource not found\n"`, not with the
message of the error. -/
theorem Update_other_error_body :
    (Error.New "boom").IsErrNoRows = false ∧
    (RegisterUpdate nameJSON (countUpdate (some (Error.New "boom"))) http.NewRecorder
        { PathValueId := "1", Body := "x" } 0).1.Code = 400 ∧
    (RegisterUpdate nameJSON (countUpdate (some (Error.New "boom"))) http.NewRecorder
        { PathValueId := "1", Body := "x" } 0).1.Body = "resource not found\n" ∧
    (Error.New "boom").msg ++ "\n" ≠ "resource not found\n" := by
  decide

/-- C17: when the repository operation succeeds, the Create handler answers with status 201
and the JSON object with the member `id` set to the id returned; the Get and GetAll handlers
answer with status 201 and the text that the encoder writes for the result (nothing when the
result cannot be encoded); the Delete and Update handlers answer with status 200 and an empty
body. -/
theorem success_is_answered {In Out σ : Type} (JI : JSON In) (JO : JSON Out)
    (JA : JSON (Slice Out)) (r : http.Request) (s s1 : σ) :
    (∀ (f : In → σ → (Int × Option Error) × σ) (in_ : In) (n : Int),
      JI.Decode r.Body = Except.ok in_ → f in_ s = ((n, none), s1) →
      (RegisterCreate JI f http.NewRecorder r s).1.Code = 201 ∧
      (RegisterCreate JI f http.NewRecorder r s).1.Body =
        "\x7b\"id\":" ++ toString n ++ "\x7d\n") ∧
    (∀ (f : Int → σ → (Out × Option Error) × σ) (id : Int) (out : Out),
      strconv.Atoi r.PathValueId = Except.ok id → f id s = ((out, none), s1) →
      (RegisterGet JO f http.NewRecorder r s).1.Code = 201 ∧
      (RegisterGet JO f http.NewRecorder r s).1.Body =
        (match JO.Encode out with
         | Except.ok text => text
         | Except.error _ => "")) ∧
    (∀ (f : σ → (Slice Out × Option Error) × σ) (out : Slice Out), f s = ((out, none), s1) →
      (RegisterGetAll JA f http.NewRecorder r s).1.Code = 201 ∧
      (RegisterGetAll JA f http.NewRecorder r s).1.Body =
        (match JA.Encode out with
         | Except.ok text => text
         | Except.error _ => "")) ∧
    (∀ (f : Int → σ → Option Error × σ) (id : Int),
      strconv.Atoi r.PathValueId = Except.ok id → f id s = (none, s1) →
      (RegisterDelete f http.NewRecorder r s).1.Code = 200 ∧
      (RegisterDelete f http.NewRecorder r s).1.Body = "") ∧
    (∀ (f : In → Int → σ → Option Error × σ) (in_ : In) (id : Int),
      JI.Decode r.Body = Except.ok in_ → strconv.Atoi r.PathValueId = Except.ok id →
      f in_ id s = (none, s1) →
      (RegisterUpdate JI f http.NewRecorder r s).1.Code = 200 ∧
      (RegisterUpdate JI f http.NewRecorder r s).1.Body = "") := by
  refine ⟨?_, ?_, ?_, ?_, ?_⟩
  · intro f in_ n hdec hf
    simp only [RegisterCreate, hdec, hf]
    constructor
    · rfl
    · simp [http.NewRecorder, http.ResponseWriter.Write, http.ResponseWriter.WriteHeader,
        http.ResponseWriter.HeaderSet, encodeId]
  · intro f id out hid hf
    simp only [RegisterGet, hid, hf, encodeTo]
    cases JO.Encode out with
    | error e => exact ⟨rfl, rfl⟩
    | ok text =>
      constructor
      · rfl
      · simp [http.NewRecorder, http.ResponseWriter.Write, http.ResponseWriter.WriteHeader,
          http.ResponseWriter.HeaderSet]
  · intro f out hf
    simp only [RegisterGetAll, hf, encodeTo]
    cases JA.Encode out with
    | error e => exact ⟨rfl, rfl⟩
    | ok text =>
      constructor
      · rfl
      · simp [http.NewRecorder, http.ResponseWriter.Write, http.ResponseWriter.WriteHeader,
          http.ResponseWriter.HeaderSet]
  · intro f id hid hf
    simp only [RegisterDelete, hid, hf]
    exact ⟨rfl, rfl⟩
  · intro f in_ id hdec hid hf
    simp only [RegisterUpdate, hdec, hid, hf]
    exact ⟨rfl, rfl⟩

/-- C17, at requests for id `1` with the body `"x"`, with operations that succeed. -/
theorem success_is_answered_witness :
    (RegisterCreate nameJSON (countCreate 1 none) http.NewRecorder
        { PathValueId := "1", Body := "x" } 0).1.Body = "\x7b\"id\":" ++ toString (1 : Int) ++ "\x7d\n" ∧
    (RegisterGet nameJSON (countGet "x" none) http.NewRecorder
        { PathValueId := "1", Body := "x" } 0).1.Code = 201 ∧
    (RegisterGetAll namesJSON (countGetAll (some ["x"]) none) http.NewRecorder
        { PathValueId := "1", Body := "x" } 0).1.Code = 201 ∧
    (RegisterDelete (countDelete none) http.NewRecorder
        { PathValueId := "1", Body := "x" } 0).1.Code = 200 ∧
    (RegisterUpdate nameJSON (countUpdate none) http.NewRecorder
        { PathValueId := "1", Body := "x" } 0).1.Body = "" :=
  ⟨((success_is_answered nameJSON nameJSON namesJSON { PathValueId := "1", Body := "x" } 0
      1).1 _ "x" 1 rfl rfl).2,
    ((success_is_answered nameJSON nameJSON namesJSON { PathValueId := "1", Body := "x" } 0
      1).2.1 _ 1 "x" rfl rfl).1,
    ((success_is_answered nameJSON nameJSON namesJSON { PathValueId := "1", Body := "x" } 0
      1).2.2.1 _ (some ["x"]) rfl).1,
    ((success_is_answered nameJSON nameJSON namesJSON { PathValueId := "1", Body := "x" } 0
      1).2.2.2.1 _ 1 rfl rfl).1,
    ((success_is_answered nameJSON nameJSON namesJSON { PathValueId := "1", Body := "x" } 0
      1).2.2.2.2 _ "x" 1 rfl rfl rfl).2⟩

/-- The keys in the order of `SetMap` are the keys of the map, each once. -/
theorem sortedKeys_perm (m : GoMap) : (sq.sortedKeys m).Perm m.keys :=
  List.perm_insertionSort _ _

/-- Every key in a list of keys of a map holds a reference: looking them up drops none. -/
theorem filterMap_lookup_ptr (m : GoMap) (cols : List String) (hcols : ∀ c ∈ cols, c ∈ m) :
    ∃ refs : List Addr,
      cols.filterMap (fun k => (m.lookup k).map Arg.ptr) = refs.map Arg.ptr ∧
      cols.map (fun k => m.lookup k) = refs.map some := by
  induction cols with
  | nil => exact ⟨[], rfl, rfl⟩
  | cons c cs ih =>
    obtain ⟨refs, h1, h2⟩ := ih (fun c' hc' => hcols c' (List.mem_cons_of_mem _ hc'))
    obtain ⟨p, hp⟩ := Option.isSome_iff_exists.mp
      (AList.lookup_isSome.mpr (hcols c (List.mem_cons_self _ _)))
    refine ⟨p :: refs, ?_, ?_⟩
    · rw [List.filterMap_cons]
      simp only [hp, Option.map_some', List.map_cons, h1]
    · simp only [List.map_cons, hp, h2]

/-- C11: whenever the builder returns the statement for `Update`, it is an UPDATE of the
table whose columns, each once, are exactly the keys of the record's mapping other than
`"id"`; its arguments are, column by column, the reference the mapping holds for the column,
so the executor receives the current value of that field, followed by the id argument as the
value of the filter on `id`. The builder does return a statement when the repository has a
table name and the mapping has a key other than `"id"`. -/
theorem Update_builds_statement {M σ : Type} (I : Model M) (r : Repository M σ) (model : M)
    (id : Int) (h : Heap) (s : σ) :
    (∀ query args,
      sq.Update r.table ((I.StructToMap model).erase "id") id = Except.ok (query, args) →
      ∃ (cols : List String) (refs : List Addr),
        query = Sql.update r.table cols ∧
        args = refs.map Arg.ptr ++ [Arg.val (Value.int id)] ∧
        cols.Nodup ∧
        (∀ k, k ∈ cols ↔ (k ∈ I.StructToMap model ∧ k ≠ "id")) ∧
        cols.map (fun k => (I.StructToMap model).lookup k) = refs.map some ∧
        Repository.Update I r model id h s =
          (match r.db.ExecContext (Sql.update r.table cols)
              (refs.map h.load ++ [Value.int id]) s with
           | (Except.error _, s) =>
             (Outcome.panic "runtime error: invalid memory address or nil pointer dereference",
               s)
           | (Except.ok _, s) => (Outcome.ret none, s))) ∧
    (r.table ≠ "" → (∃ k, k ∈ I.StructToMap model ∧ k ≠ "id") →
      ∃ query args,
        sq.Update r.table ((I.StructToMap model).erase "id") id = Except.ok (query, args)) := by
  have hmemE : ∀ k, k ∈ sq.sortedKeys ((I.StructToMap model).erase "id") ↔
      (k ∈ I.StructToMap model ∧ k ≠ "id") := by
    intro k
    rw [(sortedKeys_perm _).mem_iff, ← AList.mem_keys, AList.mem_erase]
    exact And.comm
  constructor
  · intro query args hb
    unfold sq.Update at hb
    by_cases ht : r.table = ""
    · simp [ht] at hb
    · by_cases hk : ((I.StructToMap model).erase "id").keys = []
      · simp [ht, hk] at hb
      · simp only [ht, hk, if_false, Except.ok.injEq, Prod.mk.injEq] at hb
        obtain ⟨refs, hrefs, hlook⟩ := filterMap_lookup_ptr ((I.StructToMap model).erase "id")
          (sq.sortedKeys ((I.StructToMap model).erase "id"))
          (fun c hc => by
            rw [(sortedKeys_perm _).mem_iff] at hc
            exact AList.mem_keys.mpr hc)
        refine ⟨sq.sortedKeys ((I.StructToMap model).erase "id"), refs, hb.1.symm, ?_, ?_,
          hmemE, ?_, ?_⟩
        · rw [← hb.2, hrefs]
        · exact (sortedKeys_perm _).nodup_iff.mpr (AList.keys_nodup _)
        · rw [← hlook]
          apply List.map_congr_left
          intro k hk'
          have hne : k ≠ "id" := ((hmemE k).mp hk').2
          exact (AList.lookup_erase_ne hne).symm
        · simp only [Repository.Update, sq.Update, ht, hk, if_false, hrefs, List.map_append,
            List.map_map, List.map_cons, List.map_nil]
          rfl
  · intro ht hex
    obtain ⟨k, hk, hne⟩ := hex
    have hkeys : ((I.StructToMap model).erase "id").keys ≠ [] := by
      intro hnil
      have : k ∈ ((I.StructToMap model).erase "id").keys :=
        AList.mem_keys.mp (AList.mem_erase.mpr ⟨hne, hk⟩)
      rw [hnil] at this
      exact List.not_mem_nil _ this
    refine ⟨Sql.update r.table (sq.sortedKeys ((I.StructToMap model).erase "id")),
      (sq.sortedKeys ((I.StructToMap model).erase "id")).filterMap
        (fun k => (((I.StructToMap model).erase "id").lookup k).map Arg.ptr) ++
        [Arg.val (Value.int id)], ?_⟩
    simp only [sq.Update, ht, hkeys, if_false]

/-- C11, at the item at address `0` with the name `"x"` and the id argument `7`: the executor
receives the UPDATE of the column `name` with the values `"x"` and `7`. -/
theorem Update_builds_statement_witness :
    "item" ≠ "" ∧ (∃ k, k ∈ itemModel.StructToMap (some 0) ∧ k ≠ "id") ∧
    sq.Update "item" ((itemModel.StructToMap (some 0)).erase "id") 7 =
      Except.ok (Sql.update "item" ["name"], [Arg.ptr 1, Arg.val (Value.int 7)]) ∧
    ∃ (cols : List String) (refs : List Addr),
      Sql.update "item" ["name"] = Sql.update "item" cols ∧
      [Arg.ptr 1, Arg.val (Value.int 7)] = refs.map Arg.ptr ++ [Arg.val (Value.int 7)] ∧
      cols.Nodup ∧
      ∃ query args, sq.Update "item" ((itemModel.StructToMap (some 0)).erase "id") 7 =
        Except.ok (query, args) := by
  have hw := Update_builds_statement itemModel (stubRepo (Except.ok okResult)
    (Except.error Error.ErrNoRows)) (some 0) 7 itemHeap ()
  obtain ⟨cols, refs, h1, h2, h3, _⟩ := hw.1 (Sql.update "item" ["name"])
    [Arg.ptr 1, Arg.val (Value.int 7)] rfl
  exact ⟨by decide, ⟨"name", by decide, by decide⟩, rfl, cols, refs, h1, h2, h3,
    hw.2 (by decide) ⟨"name", by decide, by decide⟩⟩

end gocrud
